import Mathlib

/-
  Verification development for the aura-helper metadata-factory subsystem.

  The embedding follows src/index.ts.  JavaScript objects used as maps are
  modelled as ordered association lists (List (String × α)), matching the
  insertion-order semantics of Object.keys iteration.  JavaScript string
  primitives (indexOf, substring, split, replace, endsWith, trim) are
  modelled by explicit list-of-characters functions below.
-/

namespace MetaFactory

/-! ## JavaScript string primitives -/

/-- Whether the second list is an initial segment of the first. -/
def listStartsWith : List Char → List Char → Bool
  | _, [] => true
  | [], _ :: _ => false
  | a :: as, b :: bs => a = b && listStartsWith as bs

/-- Index of the first occurrence of a pattern, scanning from `i`. -/
def listIndexOfAux : List Char → List Char → Nat → Option Nat
  | [], needle, i => if needle = [] then some i else none
  | c :: rest, needle, i =>
    if listStartsWith (c :: rest) needle then some i
    else listIndexOfAux rest needle (i + 1)

/-- Index of the last occurrence of a pattern, scanning from `i`. -/
def listLastIndexOfAux : List Char → List Char → Nat → Option Nat → Option Nat
  | [], needle, i, acc => if needle = [] then some i else acc
  | c :: rest, needle, i, acc =>
    let acc2 := if listStartsWith (c :: rest) needle then some i else acc
    listLastIndexOfAux rest needle (i + 1) acc2

/-- JS `s.indexOf(sub)` (as an option instead of -1). -/
def jsIndexOf (s sub : String) : Option Nat :=
  listIndexOfAux s.toList sub.toList 0

/-- JS `s.indexOf(sub)` returning -1 on a miss, as the source uses it. -/
def jsIndexOfI (s sub : String) : Int :=
  match jsIndexOf s sub with
  | some i => (i : Int)
  | none => -1

/-- JS `s.lastIndexOf(sub)` (as an option instead of -1). -/
def jsLastIndexOf (s sub : String) : Option Nat :=
  listLastIndexOfAux s.toList sub.toList 0 none

/-- JS `s.lastIndexOf(sub)` returning -1 on a miss. -/
def jsLastIndexOfI (s sub : String) : Int :=
  match jsLastIndexOf s sub with
  | some i => (i : Int)
  | none => -1

/-- JS `s.indexOf(sub) !== -1`, i.e. StrUtils.contains. -/
def jsContains (s sub : String) : Bool :=
  (jsIndexOf s sub).isSome

/-- JS `s.substring(a, b)`: clamps both arguments into [0, length] and swaps
them when `a > b`. -/
def jsSubstring (s : String) (a b : Int) : String :=
  let n : Int := (s.toList.length : Int)
  let aa := (max 0 (min a n)).toNat
  let bb := (max 0 (min b n)).toNat
  let lo := min aa bb
  let hi := max aa bb
  String.mk ((s.toList.drop lo).take (hi - lo))

/-- JS `s.substring(a)` (to the end of the string). -/
def jsSubstringFrom (s : String) (a : Int) : String :=
  jsSubstring s a (s.toList.length : Int)

/-- Whether the second list is a final segment of the first. -/
def listEndsWithImpl (hay needle : List Char) : Bool :=
  listStartsWith hay.reverse needle.reverse

/-- JS `s.endsWith(sub)`. -/
def jsEndsWith (s sub : String) : Bool :=
  listEndsWithImpl s.toList sub.toList

/-- JS `s.trim()`. -/
def jsTrim (s : String) : String :=
  String.mk ((((s.toList.dropWhile (·.isWhitespace)).reverse).dropWhile
    (·.isWhitespace)).reverse)

/-- Split on a (non-empty) separator pattern; accumulator holds the current
segment reversed; the structural fuel is the input length (each step
consumes at least one character, so the zero-fuel row is unreachable).
Mirrors JS `String.split` with a string separator. -/
def listSplitOnFuel (sep : List Char) : Nat → List Char → List Char → List (List Char)
  | _, [], acc => [acc.reverse]
  | 0, l, acc => [acc.reverse ++ l]
  | fuel + 1, c :: rest, acc =>
    if sep ≠ [] ∧ listStartsWith (c :: rest) sep = true then
      acc.reverse :: listSplitOnFuel sep fuel (List.drop (sep.length - 1) rest) []
    else
      listSplitOnFuel sep fuel rest (c :: acc)

def listSplitOnAux (sep : List Char) (l acc : List Char) : List (List Char) :=
  listSplitOnFuel sep l.length l acc

/-- JS `s.split(sep)` for a non-empty string separator. -/
def jsSplit (s sep : String) : List String :=
  (listSplitOnAux sep.toList s.toList []).map String.mk

/-- StrUtils.replace from the core utilities: replaces every occurrence
(`str.split(pat).join(repl)`). -/
def jsReplaceAll (s pat repl : String) : String :=
  String.intercalate repl ((listSplitOnAux pat.toList s.toList []).map String.mk)

/-- Native JS `s.replace(pat, repl)` with a string pattern: replaces only the
first occurrence. -/
def jsReplaceFirst (s pat repl : String) : String :=
  match jsIndexOf s pat with
  | none => s
  | some i =>
    String.mk (s.toList.take i) ++ repl ++ String.mk (s.toList.drop (i + pat.toList.length))

/-- PathUtils.getDirname (node `path.dirname`): text before the last slash. -/
def getDirname (s : String) : String :=
  match jsLastIndexOf s "/" with
  | some i => jsSubstring s 0 (i : Int)
  | none => "."

/-- PathUtils.getBasename (node `path.basename`): text after the last slash. -/
def getBasename (s : String) : String :=
  match jsLastIndexOf s "/" with
  | some i => jsSubstringFrom s ((i : Int) + 1)
  | none => s

/-! ## Association lists modelling JS objects -/

/-- First-match lookup, `m[k]`. -/
def alookup {α : Type} : List (String × α) → String → Option α
  | [], _ => none
  | (k0, v0) :: rest, k => if k0 = k then some v0 else alookup rest k

/-- JS `if (!m[k]) { m[k] = v }`: insert at the end when the key is absent. -/
def ains {α : Type} (m : List (String × α)) (k : String) (v : α) : List (String × α) :=
  if (alookup m k).isSome then m else m ++ [(k, v)]

/-- JS `m[k] = v`: overwrite the first occurrence in place, else append. -/
def aset {α : Type} : List (String × α) → String → α → List (String × α)
  | [], k, v => [(k, v)]
  | (k0, v0) :: rest, k, v =>
    if k0 = k then (k0, v) :: rest else (k0, v0) :: aset rest k v

/-- Modify the value stored at the first occurrence of a key (no effect when
the key is absent), e.g. JS `m[k].checked = true`. -/
def amod {α : Type} : List (String × α) → String → (α → α) → List (String × α)
  | [], _, _ => []
  | (k0, v0) :: rest, k, f =>
    if k0 = k then (k0, f v0) :: rest else (k0, v0) :: amod rest k f

/-! ## Entity model

Modelled from the spec: the three-level tree types (Type → Object → Item) of
the Entity Model, provided to the implementation by the core library.  Each
entity carries `name`, `checked`, an optional `path`; `childs` maps child
names to child entities and a Type additionally carries an optional
`suffix`. -/

structure MetadataItem where
  name : String
  checked : Bool
  path : Option String
deriving DecidableEq, Repr

structure MetadataObject where
  name : String
  checked : Bool
  path : Option String
  childs : List (String × MetadataItem)
deriving DecidableEq, Repr

structure MetadataType where
  name : String
  checked : Bool
  path : Option String
  suffix : Option String
  childs : List (String × MetadataObject)
deriving DecidableEq, Repr

abbrev Catalog := List (String × MetadataType)

/-- Constructor `new MetadataItem(name, checked?, path?)`. -/
def mkItem (name : String) (checked : Bool := false) (path : Option String := none) :
    MetadataItem :=
  { name := name, checked := checked, path := path }

/-- Constructor `new MetadataObject(name, checked?, path?)` (childs start empty). -/
def mkObject (name : String) (checked : Bool := false) (path : Option String := none) :
    MetadataObject :=
  { name := name, checked := checked, path := path, childs := [] }

/-- Constructor `new MetadataType(name, checked?, path?, suffix?)` (childs start empty). -/
def mkType (name : String) (checked : Bool := false) (path : Option String := none)
    (suffix : Option String := none) : MetadataType :=
  { name := name, checked := checked, path := path, suffix := suffix, childs := [] }

/-- MetadataDetail: category descriptor (xmlName, directoryName, suffix,
inFolder, metaFile), as constructed by `new MetadataDetail(...)`. -/
structure MetadataDetail where
  xmlName : String
  directoryName : String
  suffix : Option String
  inFolder : Option Bool
  metaFile : Option Bool
deriving DecidableEq, Repr

/-- One entry of an SFDX describe-metadata response: a top-level metadata
type description with its child category names (input of
`createMetadataDetails`). -/
structure TypeDescription where
  xmlName : String
  directoryName : String
  suffix : Option String
  inFolder : Option Bool
  metaFile : Option Bool
  childXmlNames : List String
deriving DecidableEq, Repr

/-! ## Category-name constants (MetadataTypes from the core library) -/

namespace MT

def WORKFLOW_OUTBOUND_MESSAGE := "WorkflowOutboundMessage"
def WORKFLOW_KNOWLEDGE_PUBLISH := "WorkflowKnowledgePublish"
def WORKFLOW_TASK := "WorkflowTask"
def WORKFLOW_RULE := "WorkflowRule"
def WORKFLOW_FIELD_UPDATE := "WorkflowFieldUpdate"
def WORKFLOW_ALERT := "WorkflowAlert"
def SHARING_CRITERIA_RULE := "SharingCriteriaRule"
def SHARING_OWNER_RULE := "SharingOwnerRule"
def SHARING_GUEST_RULE := "SharingGuestRule"
def SHARING_TERRITORY_RULE := "SharingTerritoryRule"
def ASSIGNMENT_RULE := "AssignmentRule"
def AUTORESPONSE_RULE := "AutoResponseRule"
def ESCALATION_RULE := "EscalationRule"
def MATCHING_RULE := "MatchingRule"
def CUSTOM_LABEL := "CustomLabel"
def CUSTOM_LABELS := "CustomLabels"
def WORKFLOW := "Workflow"
def SHARING_RULES := "SharingRules"
def ASSIGNMENT_RULES := "AssignmentRules"
def AUTORESPONSE_RULES := "AutoResponseRules"
def ESCALATION_RULES := "EscalationRules"
def MATCHING_RULES := "MatchingRules"
def LIGHTNING_COMPONENT_BUNDLE := "LightningComponentBundle"
def AURA_DEFINITION_BUNDLE := "AuraDefinitionBundle"
def STATIC_RESOURCE := "StaticResource"
def APEX_CLASS := "ApexClass"
def APEX_PAGE := "ApexPage"
def APEX_TRIGGER := "ApexTrigger"
def APEX_COMPONENT := "ApexComponent"
def EMAIL_TEMPLATE := "EmailTemplate"
def DOCUMENT := "Document"
def REPORT := "Report"
def DASHBOARD := "Dashboard"
def LAYOUT := "Layout"
def CUSTOM_OBJECT_TRANSLATIONS := "CustomObjectTranslation"
def FLOW := "Flow"
def STANDARD_VALUE_SET_TRANSLATION := "StandardValueSetTranslation"
def QUICK_ACTION := "QuickAction"
def CUSTOM_METADATA := "CustomMetadata"
def APPROVAL_PROCESSES := "ApprovalProcess"
def DUPLICATE_RULE := "DuplicateRule"
def CUSTOM_OBJECT := "CustomObject"
def CUSTOM_FIELD := "CustomField"
def INDEX := "Index"
def RECORD_TYPE := "RecordType"
def LISTVIEW := "ListView"
def BUSINESS_PROCESS := "BusinessProcess"
def COMPACT_LAYOUT := "CompactLayout"
def VALIDATION_RULE := "ValidationRule"
def SHARING_REASON := "SharingReason"
def FIELD_SET := "FieldSet"
def WEBLINK := "WebLink"

end MT

/-- One entry of the METADATA_XML_RELATION table: the tag holding each
element's identifying value (`fieldKey`) and the logical category the
elements belong to (source field `type`). -/
structure CollectionData where
  fieldKey : String
  typeName : String
deriving DecidableEq, Repr

/-- The METADATA_XML_RELATION static table: for each composite category,
the inner markup-collection names with their field key and target
category. -/
def METADATA_XML_RELATION : List (String × List (String × CollectionData)) :=
  [ (MT.WORKFLOW,
      [ ("outboundMessages", ⟨"fullName", MT.WORKFLOW_OUTBOUND_MESSAGE⟩),
        ("knowledgePublishes", ⟨"fullName", MT.WORKFLOW_KNOWLEDGE_PUBLISH⟩),
        ("tasks", ⟨"fullName", MT.WORKFLOW_TASK⟩),
        ("rules", ⟨"fullName", MT.WORKFLOW_RULE⟩),
        ("fieldUpdates", ⟨"fullName", MT.WORKFLOW_FIELD_UPDATE⟩),
        ("alerts", ⟨"fullName", MT.WORKFLOW_ALERT⟩) ]),
    (MT.SHARING_RULES,
      [ ("sharingCriteriaRules", ⟨"fullName", MT.SHARING_CRITERIA_RULE⟩),
        ("sharingOwnerRules", ⟨"fullName", MT.SHARING_OWNER_RULE⟩),
        ("sharingGuestRules", ⟨"fullName", MT.SHARING_GUEST_RULE⟩),
        ("sharingTerritoryRules", ⟨"fullName", MT.SHARING_TERRITORY_RULE⟩) ]),
    (MT.ASSIGNMENT_RULES, [ ("assignmentRule", ⟨"fullName", MT.ASSIGNMENT_RULE⟩) ]),
    (MT.AUTORESPONSE_RULES, [ ("autoresponseRule", ⟨"fullName", MT.AUTORESPONSE_RULE⟩) ]),
    (MT.ESCALATION_RULES, [ ("escalationRule", ⟨"fullName", MT.ESCALATION_RULE⟩) ]),
    (MT.MATCHING_RULES, [ ("matchingRules", ⟨"fullName", MT.MATCHING_RULE⟩) ]),
    (MT.CUSTOM_LABELS, [ ("labels", ⟨"fullName", MT.CUSTOM_LABEL⟩) ]) ]

/-- `METADATA_XML_RELATION[typeName]` as a lookup. -/
def xmlRelation (typeName : String) : Option (List (String × CollectionData)) :=
  alookup METADATA_XML_RELATION typeName

/-! ## createMetadataDetails -/

/-- A value that is neither an array nor a string, as it may be passed to
`createMetadataDetails` (the parameter is typed `string | any`). -/
inductive OtherValue where
  | undefinedV
  | nullV
  | numberV : Int → OtherValue
  | objectV
deriving DecidableEq, Repr

/-- Input of `createMetadataDetails`: a JSON array of type descriptions, a
raw string (response text or file path), or any other value. -/
inductive DetailsInput where
  | arr : List TypeDescription → DetailsInput
  | str : String → DetailsInput
  | other : OtherValue → DetailsInput
deriving DecidableEq, Repr

/-- The MetadataDetail pushed for a top-level metadata type description. -/
def detailFromParent (m : TypeDescription) : MetadataDetail :=
  { xmlName := m.xmlName, directoryName := m.directoryName, suffix := m.suffix,
    inFolder := m.inFolder, metaFile := m.metaFile }

/-- The MetadataDetail pushed for a child category name: inherits the
parent's directoryName, inFolder and metaFile; the suffix comes from the
MetadataSuffixByType table when that table has an entry for the child,
else from the parent. -/
def detailFromChild (suffixByType : String → Option String) (m : TypeDescription)
    (c : String) : MetadataDetail :=
  { xmlName := c, directoryName := m.directoryName,
    suffix := match suffixByType c with
      | some s => some s
      | none => m.suffix,
    inFolder := m.inFolder, metaFile := m.metaFile }

/-- The main loop of `createMetadataDetails`: one entry per description plus
one per child category name, in push order. -/
def createMetadataDetailsFromList (suffixByType : String → Option String) :
    List TypeDescription → List MetadataDetail
  | [] => []
  | m :: rest =>
    (detailFromParent m :: m.childXmlNames.map (detailFromChild suffixByType m)) ++
      createMetadataDetailsFromList suffixByType rest

/-- `createMetadataDetails`.  String inputs go through JSON.parse /
validateJSONFile, modelled by the `parseResponse` oracle (`.error` = both
parses failed and the exception propagates, `.ok none` = the parse yielded
a falsy value, `.ok (some ts)` = a usable description list, already
unwrapped from a status-0 response when applicable).  Inputs that are
neither an array nor a string leave the local variable unset, and the
function returns the empty list. -/
def createMetadataDetails (suffixByType : String → Option String)
    (parseResponse : String → Except Unit (Option (List TypeDescription))) :
    DetailsInput → Except Unit (List MetadataDetail)
  | .arr ts => .ok (createMetadataDetailsFromList suffixByType ts)
  | .str s =>
    match parseResponse s with
    | .error _ => .error ()
    | .ok none => .ok []
    | .ok (some ts) => .ok (createMetadataDetailsFromList suffixByType ts)
  | .other _ => .ok []

/-! ## createMetadataObjectsFromArray -/

/-- Entity.addChild on a Type.  Modelled from the spec: addChild is
idempotent; it inserts the child when the key is absent (absence checks are
otherwise the caller's responsibility). -/
def typeAddChild (t : MetadataType) (k : String) (o : MetadataObject) : MetadataType :=
  { t with childs := ains t.childs k o }

/-- Entity.addChild on an Object (adds an Item), same semantics. -/
def objAddItem (o : MetadataObject) (k : String) (it : MetadataItem) : MetadataObject :=
  { o with childs := ains o.childs k it }

/-- `metadataType.getChild(ok)!.addChild(ik, it)`: modifies the stored child
object in place. -/
def typeAddItemUnder (t : MetadataType) (ok ik : String) (it : MetadataItem) :
    MetadataType :=
  { t with childs := amod t.childs ok (fun o => objAddItem o ik it) }

/-- A member of a member list: either a raw string or a record carrying
fullName and the org namespace (source field namespacePrefix). -/
inductive PkgMember where
  | strM : String → PkgMember
  | recM : String → Option String → PkgMember
deriving DecidableEq, Repr

/-- JS truthiness of a member (`if (obj)`): the empty string is falsy. -/
def PkgMember.truthy : PkgMember → Bool
  | .strM s => s ≠ ""
  | .recM _ _ => true

/-- `obj.fullName || obj` (record members are assumed to carry a non-empty
fullName). -/
def PkgMember.objName : PkgMember → String
  | .strM s => s
  | .recM f _ => f

/-- `obj.namespacePrefix` (undefined on plain string members). -/
def PkgMember.nspace : PkgMember → Option String
  | .strM _ => none
  | .recM _ ns => ns

/-- `!obj.namespacePrefix || obj.namespacePrefix === namespacePrefix`:
falsy namespaces (absent or empty) always pass; otherwise strict equality
with the target namespace parameter. -/
def nsMatches (nspace nsParam : Option String) : Bool :=
  match nspace with
  | none => true
  | some p =>
    if p = "" then true
    else match nsParam with
      | some q => p = q
      | none => false

/-- The per-category member-name separator chosen at the top of the loop of
createMetadataObjectsFromArray. -/
def separatorFor (typeName : String) : String :=
  if typeName = MT.EMAIL_TEMPLATE ∨ typeName = MT.DOCUMENT ∨ typeName = MT.REPORT ∨
      typeName = MT.DASHBOARD then "/"
  else if typeName = MT.LAYOUT ∨ typeName = MT.CUSTOM_OBJECT_TRANSLATIONS ∨
      typeName = MT.FLOW ∨ typeName = MT.STANDARD_VALUE_SET_TRANSLATION then "-"
  else "."

/-- The object-only insertion path of createMetadataObjectsFromArray
(`if (!item)`): QuickAction creates a self-named Item, grouped under
"GlobalActions" when requested; other categories add just the Object. -/
def addMemberObjectOnly (fromPackage groupGlobalActions : Bool) (name : String)
    (t0 : MetadataType) : MetadataType :=
  if t0.name = MT.QUICK_ACTION then
    let n2 := if groupGlobalActions then "GlobalActions" else name
    typeAddItemUnder (typeAddChild t0 n2 (mkObject n2 fromPackage)) n2 name
      (mkItem name fromPackage)
  else typeAddChild t0 name (mkObject name fromPackage)

/-- The object-plus-item insertion path of createMetadataObjectsFromArray:
a QuickAction self-named item is grouped under "GlobalActions" when
requested. -/
def addMemberObjectAndItem (fromPackage groupGlobalActions : Bool) (name it : String)
    (t0 : MetadataType) : MetadataType :=
  let n2 := if t0.name = MT.QUICK_ACTION ∧ it = name ∧ groupGlobalActions then
      "GlobalActions"
    else name
  typeAddItemUnder (typeAddChild t0 n2 (mkObject n2 fromPackage)) n2 it
    (mkItem it fromPackage)

/-- The body of createMetadataObjectsFromArray's loop for one member. -/
def processMember (downloadAll : Bool) (nsParam : Option String) (fromPackage : Bool)
    (groupGlobalActions : Bool) (t : MetadataType) (m : PkgMember) : MetadataType :=
  let sep := separatorFor t.name
  if m.truthy = false then t
  else
    let objName := m.objName
    if objName = "*" then t
    else
      let hasSep := (jsIndexOf objName sep).isSome
      let name := if hasSep then jsSubstring objName 0 (jsIndexOfI objName sep) else objName
      let item : Option String :=
        if hasSep then some (jsSubstringFrom objName (jsIndexOfI objName sep + 1)) else none
      let itemFalsy : Bool := match item with
        | none => true
        | some s => s = ""
      if downloadAll then
        if itemFalsy then addMemberObjectOnly fromPackage groupGlobalActions name t
        else addMemberObjectAndItem fromPackage groupGlobalActions name (item.getD "") t
      else
        if itemFalsy ∧ nsMatches m.nspace nsParam then
          addMemberObjectOnly fromPackage groupGlobalActions name t
        else if nsMatches m.nspace nsParam then
          addMemberObjectAndItem fromPackage groupGlobalActions name (item.getD "") t
        else t

/-- createMetadataObjectsFromArray: folds the member list into the type. -/
def createMetadataObjectsFromArray (t : MetadataType) (dataList : List PkgMember)
    (downloadAll : Bool) (nsParam : Option String) (fromPackage : Bool)
    (groupGlobalActions : Bool) : MetadataType :=
  dataList.foldl (processMember downloadAll nsParam fromPackage groupGlobalActions) t

/-! ## createMetadataTypesFromPackageXML -/

/-- The content under a `Package` root tag: the api version and the member
list of each `types` block. -/
structure PackageBody where
  version : Option String
  types : List (String × List String)
deriving DecidableEq, Repr

/-- A value parsed from markup or passed pre-parsed: it may carry a
`Package` root (absent = falsy), or the `prepared` flag with its member
lists. -/
structure ParsedXml where
  packageBody : Option PackageBody
  prepared : Bool
  preparedTypes : List (String × List String)
  preparedVersion : Option String
deriving DecidableEq, Repr

/-- The result of preparePackageFromXML: member lists keyed by category plus
the bookkeeping keys `version` and `prepared`. -/
structure PreparedPackage where
  version : Option String
  types : List (String × List String)
deriving DecidableEq, Repr

/-- preparePackageFromXML (no apiVersion argument at the call site). -/
def preparePackageFromXML (pkg : ParsedXml) : PreparedPackage :=
  match pkg.packageBody with
  | some body => { version := body.version, types := body.types }
  | none =>
    if pkg.prepared then { version := pkg.preparedVersion, types := pkg.preparedTypes }
    else { version := none, types := [] }

/-- The loop body of createMetadataTypesFromPackageXML for one category:
the Type's own checked flag records whether the member list contains the
wildcard, then the members are classified with downloadAll = true and
fromPackage = true. -/
def buildTypeFromMembers (groupGlobalActions : Bool) (tn : String)
    (members : List String) : MetadataType :=
  let t0 : MetadataType := { mkType tn with checked := members.contains "*" }
  createMetadataObjectsFromArray t0 (members.map PkgMember.strM) true none true
    groupGlobalActions

/-- The catalog built from a prepared package: every key except `version`
and `prepared` yields one Type. -/
def catalogFromPrepared (groupGlobalActions : Bool) (p : PreparedPackage) : Catalog :=
  p.types.foldl
    (fun acc kv =>
      if kv.1 ≠ "version" ∧ kv.1 ≠ "prepared" then
        aset acc kv.1 (buildTypeFromMembers groupGlobalActions kv.1 kv.2)
      else acc)
    []

/-- Error taxonomy of createMetadataTypesFromPackageXML. -/
inductive PkgError where
  | wrongDatatype
  | wrongFormat
deriving DecidableEq, Repr

/-- Input of createMetadataTypesFromPackageXML (`string | any`). -/
inductive PkgInput where
  | nullish
  | strP : String → PkgInput
  | objP : ParsedXml → PkgInput
  | otherTruthy
deriving DecidableEq, Repr

/-- JS truthiness of the input; `nullish` stands for the falsy values
(null, undefined, 0, false), the empty string is likewise falsy. -/
def pkgTruthy : PkgInput → Bool
  | .nullish => false
  | .strP s => s ≠ ""
  | .objP _ => true
  | .otherTruthy => true

/-- createMetadataTypesFromPackageXML.  String inputs are resolved through
two oracles for the external file system and markup parser: `parseFile`
models validateFilePath + readFileSync + parseXML (none = any of them
threw) and `parseStr` models parseXML on the raw content (none = it
threw). -/
def createMetadataTypesFromPackageXML (parseFile parseStr : String → Option ParsedXml)
    (groupGlobalActions : Bool) (inp : PkgInput) : Except PkgError Catalog :=
  if pkgTruthy inp = false then .ok []
  else
    let xmlRoot : Except PkgError ParsedXml :=
      match inp with
      | .nullish => .error .wrongDatatype
      | .strP s =>
        match parseFile s with
        | some x => .ok x
        | none =>
          match parseStr s with
          | some x => .ok x
          | none => .error .wrongDatatype
      | .objP x => .ok x
      | .otherTruthy => .error .wrongDatatype
    match xmlRoot with
    | .error e => .error e
    | .ok x =>
      if x.packageBody = none ∧ x.prepared = false then .error .wrongFormat
      else .ok (catalogFromPrepared groupGlobalActions (preparePackageFromXML x))

/-- The resolution relation of createMetadataTypesFromPackageXML: the truthy
input yields the parsed structure `x` (a direct object, or a string whose
file parse - or failing that, content parse - succeeds). -/
def pkgResolvesTo (parseFile parseStr : String → Option ParsedXml) (inp : PkgInput)
    (x : ParsedXml) : Prop :=
  pkgTruthy inp = true ∧
    (inp = .objP x ∨
      ∃ s, inp = .strP s ∧
        (parseFile s = some x ∨ (parseFile s = none ∧ parseStr s = some x)))

/-! ## Diff scanning (analizeDiffChanges) -/

/-- Modelled from the spec: the external markup parser's
`findStartTag(lineText, tagName)` returns the tag name when the line
contains the start tag. -/
def xmlStartTag (line tag : String) : Option String :=
  if jsContains line ("<" ++ tag ++ ">") then some tag else none

/-- Modelled from the spec: `findEndTag(lineText, tagName)` returns the tag
name when the line contains the end tag. -/
def xmlEndTag (line tag : String) : Option String :=
  if jsContains line ("</" ++ tag ++ ">") then some tag else none

/-- The loop of getChildTypeStartTag: first collection name whose start tag
occurs on the line (the loop variable keeps the last probe, so a full miss
returns none). -/
def firstStartTag (content : String) : List (String × CollectionData) → Option String
  | [] => none
  | (k, _) :: rest =>
    match xmlStartTag content k with
    | some tag => some tag
    | none => firstStartTag content rest

/-- getChildTypeStartTag: probes each collection name of the category's
METADATA_XML_RELATION entry against the comma-stripped line. -/
def getChildTypeStartTag (metadataType content : String) : Option String :=
  match xmlRelation metadataType with
  | none => none
  | some rel => firstStartTag (jsReplaceAll content "," "") rel

/-- The mutable locals of the scanning loop in analizeDiffChanges. -/
structure ScanState where
  startCollectionTag : Option String
  endCollectionTag : Option String
  onMember : Bool
  fullNameContent : String
  collectionData : Option CollectionData
  metadata : Catalog
  added : Bool
deriving DecidableEq, Repr

/-- The catalog update when a complete collection element has been
accumulated (src lines 1445-1458): ensure the target Type, then for
CustomLabels register the value as an Object, otherwise as an Item under
the base filename Object (the Item assignment is an overwrite). -/
def commitEntry (xmlName fileName filePath typePath : String) (suffix : Option String)
    (tp fnc : String) (metadata : Catalog) : Catalog :=
  let md1 := ains metadata tp (mkType tp true (some typePath) suffix)
  if xmlName = MT.CUSTOM_LABELS then
    amod md1 tp (fun t =>
      { t with childs := ains t.childs fnc (mkObject fnc true (some filePath)) })
  else
    let md2 := amod md1 tp (fun t =>
      { t with childs := ains t.childs fileName (mkObject fileName true (some filePath)) })
    amod md2 tp (fun t =>
      { t with childs := amod t.childs fileName (fun o =>
        { o with childs := aset o.childs fnc (mkItem fnc true (some filePath)) }) })

/-- One iteration of the scanning loop of analizeDiffChanges over a changed
line (src lines 1411-1464). -/
def scanLine (xmlName fileName filePath typePath : String) (suffix : Option String)
    (st : ScanState) (line0 : String) : ScanState :=
  let changedLine := jsReplaceAll line0 "," ""
  let sct := match st.startCollectionTag with
    | some t => some t
    | none => getChildTypeStartTag xmlName changedLine
  let step1 : Option CollectionData × Bool × String :=
    match sct with
    | none => (st.collectionData, st.onMember, st.fullNameContent)
    | some tag =>
      match (xmlRelation xmlName).bind (fun rel => alookup rel tag) with
      | none => (none, st.onMember, st.fullNameContent)
      | some cdata =>
        let startNameTag := xmlStartTag changedLine cdata.fieldKey
        let endNameTag := xmlEndTag changedLine cdata.fieldKey
        match startNameTag, endNameTag with
        | some sTag, some eTag =>
          let startTagIndex := jsIndexOfI changedLine ("<" ++ sTag ++ ">")
          let endTagIndex := jsIndexOfI changedLine ("</" ++ eTag ++ ">")
          let f1 := jsSubstring changedLine startTagIndex endTagIndex
          let f2 := jsSubstringFrom f1 (jsIndexOfI f1 ">" + 1)
          (some cdata, st.onMember, f2)
        | some _, none => (some cdata, true, st.fullNameContent ++ changedLine)
        | none, eTag =>
          if st.onMember then (some cdata, st.onMember, st.fullNameContent ++ changedLine)
          else match eTag with
            | some _ => (some cdata, false, st.fullNameContent ++ changedLine)
            | none => (some cdata, st.onMember, st.fullNameContent)
  let cd := step1.1
  let om := step1.2.1
  let fnc := step1.2.2
  let ect := match sct with
    | none => st.endCollectionTag
    | some s =>
      match st.endCollectionTag with
      | some e => some e
      | none => xmlEndTag changedLine s
  match ect with
  | none =>
    { startCollectionTag := sct, endCollectionTag := none, onMember := om,
      fullNameContent := fnc, collectionData := cd, metadata := st.metadata,
      added := st.added }
  | some ectv =>
    let cd2 := match cd with
      | some c => some c
      | none => (xmlRelation xmlName).bind (fun rel => alookup rel ectv)
    let fnc2 := jsTrim (jsReplaceAll fnc "," "")
    if fnc2.length > 0 then
      match cd2 with
      | some c =>
        { startCollectionTag := none, endCollectionTag := none, onMember := om,
          fullNameContent := "", collectionData := cd2,
          metadata := commitEntry xmlName fileName filePath typePath suffix c.typeName
            fnc2 st.metadata,
          added := true }
      | none =>
        { startCollectionTag := none, endCollectionTag := none, onMember := om,
          fullNameContent := fnc2, collectionData := cd2, metadata := st.metadata,
          added := st.added }
    else
      { startCollectionTag := none, endCollectionTag := none, onMember := om,
        fullNameContent := fnc2, collectionData := cd2, metadata := st.metadata,
        added := st.added }

/-- `typePath` as computed at the top of analizeDiffChanges. -/
def typePathOf (d : MetadataDetail) (filePath : String) : String :=
  jsSubstring filePath 0 (jsIndexOfI filePath ("/" ++ d.directoryName)) ++ "/" ++
    d.directoryName

/-- Initial scanning state (the `added` flag is set to false on entry to
the non-empty branch). -/
def initScanState (metadata : Catalog) : ScanState :=
  ⟨none, none, false, "", none, metadata, false⟩

/-- The fallback tree built when nothing was recognized: the bare
file-level Object under the file's original category. -/
def fallbackTree (d : MetadataDetail) (fileName filePath typePath : String) : Catalog :=
  let t := mkType d.xmlName true (some typePath) d.suffix
  [(d.xmlName, { t with childs := ains t.childs fileName (mkObject fileName true
    (some filePath)) })]

/-- analizeDiffChanges: returns the (possibly extended) catalog that was
passed in by reference, and the optional fallback tree that the function
returns. -/
def analizeDiffChanges (diffChanges : List String) (metadata : Catalog)
    (d : MetadataDetail) (fileName filePath : String) : Catalog × Option Catalog :=
  let typePath := typePathOf d filePath
  if diffChanges.length > 0 then
    let st := diffChanges.foldl (scanLine d.xmlName fileName filePath typePath d.suffix)
      (initScanState metadata)
    if st.added then (st.metadata, none)
    else (st.metadata, some (fallbackTree d fileName filePath typePath))
  else (metadata, none)

/-! ## Cross-file merge loops of createMetadataTypesFromGitDiffs -/

/-- One contributed Object merged into the running to-deploy tree
(src lines 740-742): insert when absent, otherwise leave the existing node
untouched. -/
def deployObjStep (tn : String) (acc : Catalog) (ck : String)
    (child : MetadataObject) : Catalog :=
  amod acc tn (fun t => { t with childs := ains t.childs ck child })

/-- One contributed Object merged into the running to-delete tree
(src lines 784-788): insert when absent; when present and the contributed
copy is checked, promote the existing node's checked flag. -/
def deleteObjStep (tn : String) (acc : Catalog) (ck : String)
    (child : MetadataObject) : Catalog :=
  amod acc tn (fun t =>
    match alookup t.childs ck with
    | none => { t with childs := t.childs ++ [(ck, child)] }
    | some _ =>
      if child.checked then
        { t with childs := amod t.childs ck (fun o => { o with checked := true }) }
      else t)

/-- One contributed Item merged under an Object (identical grandchild loop
of both merges): insert when absent, never touch an existing Item. -/
def mergeGrandStep (tn ck : String) (acc : Catalog) (gk : String)
    (item : MetadataItem) : Catalog :=
  amod acc tn (fun t => { t with childs := amod t.childs ck (fun o =>
    { o with childs := ains o.childs gk item }) })

/-- Loop body for one contributed Object and its Items (to-deploy). -/
def deployBodyStep (tn : String) (acc : Catalog) (p : String × MetadataObject) :
    Catalog :=
  let acc1 := deployObjStep tn acc p.1 p.2
  if p.2.childs ≠ [] then
    p.2.childs.foldl (fun a q => mergeGrandStep tn p.1 a q.1 q.2) acc1
  else acc1

/-- Loop body for one contributed Object and its Items (to-delete). -/
def deleteBodyStep (tn : String) (acc : Catalog) (p : String × MetadataObject) :
    Catalog :=
  let acc1 := deleteObjStep tn acc p.1 p.2
  if p.2.childs ≠ [] then
    p.2.childs.foldl (fun a q => mergeGrandStep tn p.1 a q.1 q.2) acc1
  else acc1

/-- The to-deploy cross-file merge of createMetadataTypesFromGitDiffs
(src lines 736-750): ensure the Type, then union the contributed childs. -/
def mergeChildsForDeploy (deploy : Catalog) (tn : String) (fresh : MetadataType)
    (childs : List (String × MetadataObject)) : Catalog :=
  childs.foldl (deployBodyStep tn) (ains deploy tn fresh)

/-- The to-delete cross-file merge (src lines 780-797). -/
def mergeChildsForDelete (del : Catalog) (tn : String) (fresh : MetadataType)
    (childs : List (String × MetadataObject)) : Catalog :=
  childs.foldl (deleteBodyStep tn) (ains del tn fresh)

/-- Categories with a dedicated branch in getMetadataObjectsFromGitDiff
(src lines 1478-1480). -/
def specialTypes : List String :=
  [MT.CUSTOM_METADATA, MT.APPROVAL_PROCESSES, MT.DUPLICATE_RULE, MT.QUICK_ACTION,
   MT.LAYOUT, MT.AURA_DEFINITION_BUNDLE, MT.LIGHTNING_COMPONENT_BUNDLE,
   MT.ASSIGNMENT_RULES, MT.AUTORESPONSE_RULES, MT.WORKFLOW, MT.CUSTOM_LABELS,
   MT.SHARING_RULES, MT.FLOW, MT.CUSTOM_OBJECT_TRANSLATIONS, MT.STATIC_RESOURCE]

/-- The repeated folder-file registration of the generic branch of
getMetadataObjectsFromGitDiff (src lines 1493-1500 and 1508-1516): set the
Object path and record the file as a checked Item, or check the Object
itself when the base folder has a single part. -/
def gitDiffFolderChild (objects : List (String × MetadataObject))
    (key fistPartBaseFolder : String) (len : Nat)
    (folderPath fileName filePath : String) : List (String × MetadataObject) :=
  if fistPartBaseFolder = "objects" ∧ len > 2 then
    amod (amod objects key (fun o => { o with path := some folderPath })) key
      (fun o =>
        let c := aset o.childs fileName (mkItem fileName true (some filePath))
        { o with childs := c })
  else if len > 1 then
    amod (amod objects key (fun o => { o with path := some folderPath })) key
      (fun o =>
        let c := aset o.childs fileName (mkItem fileName true (some filePath))
        { o with childs := c })
  else
    amod objects key (fun o => { o with checked := true })

/-- getMetadataObjectsFromGitDiff (src lines 1477-1622): the Object/Item
tree contributed by one diff file of a non-composite category.  Notes on
the translation: an out-of-range JS index access (which the source only
performs on names of the expected shape; on other input it would fault on
`undefined`) is modelled as the empty string; the no-op
`else if (sobj === item) item = sobj` of the QuickAction branch is
dropped; the StaticResource resource path reproduces the source's
`+ + '.'` (a unary plus turning `'.'` into NaN, concatenated as the text
NaN). -/
def getMetadataObjectsFromGitDiff (metadataDetail : MetadataDetail)
    (baseFolderSplits : List String) (fileName filePath : String)
    (groupGlobalActions : Bool) : List (String × MetadataObject) :=
  let objects : List (String × MetadataObject) := []
  let fistPartBaseFolder := (baseFolderSplits.get? 0).getD ""
  let folderPath := getBasename filePath
  if baseFolderSplits.length > 1 ∧
      specialTypes.contains metadataDetail.xmlName = false then
    let metadataObjectFolderName := (baseFolderSplits.get? 1).getD ""
    if jsIndexOfI fileName "Folder-meta.xml" = -1 then
      if metadataDetail.xmlName = MT.DOCUMENT then
        if jsIndexOfI fileName "-meta.xml" = -1 then
          let objects := ains objects metadataObjectFolderName
            (mkObject metadataObjectFolderName false (some filePath))
          gitDiffFolderChild objects metadataObjectFolderName fistPartBaseFolder
            baseFolderSplits.length folderPath fileName filePath
        else objects
      else
        let objects := ains objects metadataObjectFolderName
          (mkObject metadataObjectFolderName false (some filePath))
        if ¬metadataDetail.xmlName = MT.CUSTOM_OBJECT then
          gitDiffFolderChild objects metadataObjectFolderName fistPartBaseFolder
            baseFolderSplits.length folderPath fileName filePath
        else
          amod objects metadataObjectFolderName (fun o => { o with checked := true })
    else
      let fileName := jsReplaceAll fileName "-meta.xml" ""
      let fileName := jsSubstring fileName 0 (jsLastIndexOfI fileName ".")
      if (alookup objects fileName).isSome = false then
        aset objects fileName (mkObject fileName true (some filePath))
      else
        amod objects fileName (fun o => { o with checked := true })
  else if metadataDetail.xmlName = MT.CUSTOM_METADATA ∨
      metadataDetail.xmlName = MT.APPROVAL_PROCESSES ∨
      metadataDetail.xmlName = MT.DUPLICATE_RULE then
    let fileNameParts := jsSplit fileName "."
    let sobj := jsTrim ((fileNameParts.get? 0).getD "")
    let item := jsTrim ((fileNameParts.get? 1).getD "")
    let objects := ains objects sobj (mkObject sobj true (some folderPath))
    amod objects sobj (fun o =>
      { o with childs := ains o.childs item (mkItem item true (some filePath)) })
  else if metadataDetail.xmlName = MT.QUICK_ACTION then
    let fileNameParts := jsSplit fileName "."
    let sobj0 := jsTrim ((fileNameParts.get? 0).getD "")
    let item := jsTrim ((fileNameParts.get? 1).getD "")
    let sobj := if sobj0 = item ∧ groupGlobalActions = true then "GlobalActions"
      else sobj0
    let objects := ains objects sobj (mkObject sobj true (some folderPath))
    amod objects sobj (fun o =>
      { o with childs := ains o.childs item (mkItem item true (some filePath)) })
  else if metadataDetail.xmlName = MT.LAYOUT ∨
      metadataDetail.xmlName = MT.STANDARD_VALUE_SET_TRANSLATION then
    let sobj := jsTrim (jsSubstring fileName 0 (jsIndexOfI fileName "-"))
    let item := jsTrim (jsSubstringFrom fileName (jsIndexOfI fileName "-" + 1))
    let objects := ains objects sobj (mkObject sobj true (some folderPath))
    amod objects sobj (fun o =>
      { o with childs := ains o.childs item (mkItem item true (some filePath)) })
  else if metadataDetail.xmlName = MT.CUSTOM_OBJECT_TRANSLATIONS then
    let folderName := (baseFolderSplits.get? 0).getD ""
    let sobj := jsTrim (jsSubstring folderName 0 (jsIndexOfI folderName "-"))
    let item := jsTrim (jsSubstringFrom folderName (jsIndexOfI folderName "-" + 1))
    let lastFolder := getBasename folderPath
    let objects := ains objects sobj (mkObject sobj true (some lastFolder))
    amod objects sobj (fun o =>
      { o with childs := ains o.childs item (mkItem item true (some folderPath)) })
  else if metadataDetail.xmlName = MT.STATIC_RESOURCE then
    let resourcePath :=
      jsSubstring filePath 0 (jsIndexOfI filePath ("/" ++ metadataDetail.directoryName))
    let resourcePath := resourcePath ++ "/" ++ metadataDetail.directoryName ++ "/" ++
      (baseFolderSplits.get? 1).getD "" ++ "NaN" ++ metadataDetail.suffix.getD "" ++
      "-meta.xml"
    if baseFolderSplits.length = 1 then
      ains objects fileName (mkObject fileName true (some resourcePath))
    else
      ains objects ((baseFolderSplits.get? 1).getD "")
        (mkObject ((baseFolderSplits.get? 1).getD "") true (some resourcePath))
  else if metadataDetail.xmlName = MT.FLOW then
    if ¬jsIndexOfI fileName "-" = -1 then
      let sobj := jsTrim (jsSubstring fileName 0 (jsIndexOfI fileName "-"))
      let item := jsTrim (jsSubstringFrom fileName (jsIndexOfI fileName "-" + 1))
      let objects := ains objects sobj (mkObject sobj true (some folderPath))
      amod objects sobj (fun o =>
        { o with childs := ains o.childs item (mkItem item true (some filePath)) })
    else
      ains objects fileName (mkObject fileName true (some filePath))
  else if metadataDetail.xmlName = MT.AURA_DEFINITION_BUNDLE ∨
      metadataDetail.xmlName = MT.LIGHTNING_COMPONENT_BUNDLE then
    match baseFolderSplits.get? 1 with
    | some b =>
      if ¬b = "" ∧ (alookup objects b).isSome = false then
        aset objects b (mkObject b true (some folderPath))
      else objects
    | none => objects
  else
    if ¬jsIndexOfI fileName "Folder-meta.xml" = -1 then
      let fileName := jsReplaceAll fileName "-meta.xml" ""
      let fileName := jsSubstring fileName 0 (jsLastIndexOfI fileName ".")
      if (alookup objects fileName).isSome = false then
        aset objects fileName (mkObject fileName true (some filePath))
      else
        amod objects fileName (fun o => { o with checked := true })
    else
      ains objects fileName (mkObject fileName true (some filePath))

/-- The bundle-reinterpretation test of the deleted-file branch
(src lines 761-763): the deleted file is not the defining file of an Aura
bundle (.cmp/.evt/.app), of a Lightning web component bundle
(.js-meta.xml), or of a static resource (.resource-meta.xml). -/
def bundleEditCondition (xmlName fileNameWithExt : String) : Bool :=
  (decide (xmlName = MT.AURA_DEFINITION_BUNDLE)
      && !jsEndsWith fileNameWithExt ".cmp"
      && !jsEndsWith fileNameWithExt ".evt"
      && !jsEndsWith fileNameWithExt ".app")
    || (decide (xmlName = MT.LIGHTNING_COMPONENT_BUNDLE)
      && !jsEndsWith fileNameWithExt ".js-meta.xml")
    || (decide (xmlName = MT.STATIC_RESOURCE)
      && !jsEndsWith fileNameWithExt ".resource-meta.xml")

/-- The deleted-file handler of createMetadataTypesFromGitDiffs for a
non-composite category (src lines 752-798), returning the updated
(to-deploy, to-delete) pair: when the deleted file is not the
bundle-defining file the contributed tree is merged into to-deploy (the
deletion is reinterpreted as an edit of the surviving bundle), otherwise
into to-delete. -/
def deletedFileNonComposite (deploy del : Catalog)
    (metadataDetail : MetadataDetail) (baseFolderSplits : List String)
    (fileName fileNameWithExt filePath typeFolder : String)
    (groupGlobalActions : Bool) : Catalog × Catalog :=
  let metadata := mkType metadataDetail.xmlName true (some typeFolder)
    metadataDetail.suffix
  let childs := getMetadataObjectsFromGitDiff metadataDetail baseFolderSplits
    fileName filePath groupGlobalActions
  if bundleEditCondition metadataDetail.xmlName fileNameWithExt then
    (mergeChildsForDeploy deploy metadataDetail.xmlName metadata childs, del)
  else
    (deploy, mergeChildsForDelete del metadataDetail.xmlName metadata childs)

/-- The checked flag of the Object stored at category `tn`, key `ck`. -/
def objChecked (cat : Catalog) (tn ck : String) : Option Bool :=
  (alookup cat tn).bind (fun t => (alookup t.childs ck).map (fun o => o.checked))

/-- The checked flag of the Item stored at `tn` / `ck` / `gk`. -/
def itemChecked (cat : Catalog) (tn ck gk : String) : Option Bool :=
  (alookup cat tn).bind (fun t => (alookup t.childs ck).bind (fun o =>
    (alookup o.childs gk).map (fun it => it.checked)))

/-! ## Priority resolution (priorMetadataTypes) and final ordering -/

/-- Clear the checked flag of the Object at (tn, ck) in the remove-target
tree when it is present and checked (src lines 1641-1643 and 1650-1652). -/
def uncheckObject (cat : Catalog) (tn ck : String) : Catalog :=
  amod cat tn (fun t =>
    match alookup t.childs ck with
    | none => t
    | some o =>
      if o.checked then
        { t with childs := amod t.childs ck (fun o2 => { o2 with checked := false }) }
      else t)

/-- Clear the checked flag of the Item at (tn, ck, gk) in the remove-target
tree when it is present and checked (src lines 1644-1648). -/
def uncheckItem (cat : Catalog) (tn ck gk : String) : Catalog :=
  amod cat tn (fun t => { t with childs := amod t.childs ck (fun o =>
    match alookup o.childs gk with
    | none => o
    | some it =>
      if it.checked then
        { o with childs := amod o.childs gk (fun it2 => { it2 with checked := false }) }
      else o) })

/-- Processing of one prior-tree Object (src lines 1639-1654): when the
prior Object has Items, uncheck the matching remove-tree Object and each
matching Item; otherwise just uncheck the matching remove-tree Object. -/
def priorTypeChild (tn ck : String) (child : MetadataObject) (remove : Catalog) :
    Catalog :=
  if child.childs ≠ [] then
    child.childs.foldl (fun acc q => uncheckItem acc tn ck q.1)
      (uncheckObject remove tn ck)
  else uncheckObject remove tn ck

/-- The loop over the prior Type's Objects. -/
def priorChildFold (tn : String) (entries : List (String × MetadataObject))
    (acc : Catalog) : Catalog :=
  entries.foldl (fun acc2 q => priorTypeChild tn q.1 q.2 acc2) acc

/-- One category of the priority list: skipped when absent from the prior
tree (src line 1638). -/
def priorPassStep (prior acc : Catalog) (tn : String) : Catalog :=
  match alookup prior tn with
  | none => acc
  | some t => priorChildFold tn t.childs acc

/-- priorMetadataTypes: for each category of the priority list present in
the prior tree, clear the matching checked flags in the remove tree. -/
def priorMetadataTypes (types : List String) (prior remove : Catalog) : Catalog :=
  types.foldl (priorPassStep prior) remove

/-- The delete-priority category list (src lines 801-813). -/
def typesForPriorDelete : List String :=
  [MT.LIGHTNING_COMPONENT_BUNDLE, MT.AURA_DEFINITION_BUNDLE, MT.STATIC_RESOURCE,
   MT.APEX_CLASS, MT.APEX_PAGE, MT.APEX_TRIGGER, MT.APEX_COMPONENT,
   MT.EMAIL_TEMPLATE, MT.DOCUMENT, MT.REPORT, MT.DASHBOARD]

/-- The deploy-priority category list (src lines 815-827). -/
def typesForPriorDeploy : List String :=
  [MT.CUSTOM_LABEL, MT.CUSTOM_LABELS, MT.WORKFLOW_FIELD_UPDATE,
   MT.WORKFLOW_OUTBOUND_MESSAGE, MT.WORKFLOW_TASK, MT.WORKFLOW_RULE,
   MT.WORKFLOW_ALERT, MT.SHARING_CRITERIA_RULE, MT.SHARING_OWNER_RULE,
   MT.SHARING_GUEST_RULE, MT.SHARING_TERRITORY_RULE]

/-- Stable insertion into a key-sorted association list: the inserted entry
(the one from earlier in the input) goes before entries with an equal
key. -/
def insSorted {α : Type} (x : String × α) : List (String × α) → List (String × α)
  | [] => [x]
  | y :: rest => if y.1 < x.1 then y :: insSorted x rest else x :: y :: rest

/-- Stable sort of an association list by key. -/
def sortByKey {α : Type} : List (String × α) → List (String × α)
  | [] => []
  | x :: rest => insSorted x (sortByKey rest)

/-- Modelled from the spec: MetadataUtils.orderMetadata of the core library
is specified only as the final canonical deterministic sort (by category,
then Object, then Item); node content is otherwise preserved. -/
def sortObjectEntry (o : MetadataObject) : MetadataObject :=
  { o with childs := sortByKey o.childs }

def sortTypeEntry (t : MetadataType) : MetadataType :=
  { t with childs := (sortByKey t.childs).map (fun q => (q.1, sortObjectEntry q.2)) }

def orderMetadata (cat : Catalog) : Catalog :=
  (sortByKey cat).map (fun p => (p.1, sortTypeEntry p.2))

/-- The final pass of createMetadataTypesFromGitDiffs (src lines 801-834):
apply the delete-priority pass with to-delete as prior and to-deploy as
remove target, then the deploy-priority pass with the (just modified)
to-deploy as prior and to-delete as remove target, then order both
trees. -/
def resolveGitPriorities (deploy del : Catalog) : Catalog × Catalog :=
  let deploy2 := priorMetadataTypes typesForPriorDelete del deploy
  let del2 := priorMetadataTypes typesForPriorDeploy deploy2 del
  (orderMetadata deploy2, orderMetadata del2)

/-! ## Serialization bridge (deserializeMetadataTypes) -/

/-- Untyped JSON shape of a serialized MetadataItem. -/
structure JItem where
  name : String
  checked : Bool
  path : Option String
deriving DecidableEq, Repr

/-- Untyped JSON shape of a serialized MetadataObject. -/
structure JObject where
  name : String
  checked : Bool
  path : Option String
  childs : List (String × JItem)
deriving DecidableEq, Repr

/-- Untyped JSON shape of a serialized MetadataType. -/
structure JType where
  name : String
  checked : Bool
  path : Option String
  suffix : Option String
  childs : List (String × JObject)
deriving DecidableEq, Repr

/-- Untyped JSON shape of a serialized catalog. -/
def JCatalog := List (String × JType)

/-- Modelled from the spec: serializing a typed tree to its untyped
JSON-compatible shape copies every field structurally (in JS the typed
entities already are their own JSON shape). -/
def serializeItem (it : MetadataItem) : JItem :=
  { name := it.name, checked := it.checked, path := it.path }

def serializeObject (o : MetadataObject) : JObject :=
  { name := o.name, checked := o.checked, path := o.path,
    childs := o.childs.map (fun q => (q.1, serializeItem q.2)) }

def serializeType (t : MetadataType) : JType :=
  { name := t.name, checked := t.checked, path := t.path, suffix := t.suffix,
    childs := t.childs.map (fun p => (p.1, serializeObject p.2)) }

def serialize (cat : Catalog) : JCatalog :=
  cat.map (fun p => (p.1, serializeType p.2))

/-- One child entry of the per-Type reconstruction loop of
deserializeMetadataTypes (src lines 866-878): `addChild(childKey, new
MetadataObject(obj))` (insert-if-absent per the spec's idempotent
addChild; the entity constructors copy the scalar fields), then, when the
untyped node has grandchildren, each is added to the Object just looked up
with `getChild`. -/
def jObjStep (mt : MetadataType) (p : String × JObject) : MetadataType :=
  let c1 := ains mt.childs p.1 (mkObject p.2.name p.2.checked p.2.path)
  let mt1 := { mt with childs := c1 }
  if p.2.childs ≠ [] then
    let f := fun (o : MetadataObject) =>
      p.2.childs.foldl (fun o2 q =>
        let c2 := ains o2.childs q.1 (mkItem q.2.name q.2.checked q.2.path)
        { o2 with childs := c2 }) o
    let c3 := amod mt1.childs p.1 f
    { mt1 with childs := c3 }
  else mt1

/-- One category entry of deserializeMetadataTypes (src lines 863-882):
rebuild the typed MetadataType from the untyped node, then store it unless
it is empty and empty types are being removed. -/
def jTypeStep (removeEmptyTypes : Bool) (deserialized : Catalog)
    (p : String × JType) : Catalog :=
  let metadataType := p.2.childs.foldl jObjStep
    (mkType p.2.name p.2.checked p.2.path p.2.suffix)
  if metadataType.childs ≠ [] ∨
      (¬metadataType.childs ≠ [] ∧ removeEmptyTypes = false) then
    aset deserialized p.1 metadataType
  else deserialized

/-- deserializeMetadataTypes (src lines 849-885) on an already-parsed
untyped object (the string-parsing and falsy-input guards of the source
concern other input forms; the untyped values of this embedding are
records, never null, so the per-node truthiness guards of the source are
always taken; validateMetadataJSON — modelled from the spec — passes
well-shaped input through unchanged). -/
def deserializeMetadataTypes (j : JCatalog) (removeEmptyTypes : Bool) :
    Catalog :=
  j.foldl (jTypeStep removeEmptyTypes) []

/-! ## Supporting lemmas -/

theorem alookup_append {α : Type} (l1 l2 : List (String × α)) (k : String) :
    alookup (l1 ++ l2) k = ((alookup l1 k).or (alookup l2 k)) := by
  induction l1 with
  | nil => simp [alookup]
  | cons h t ih =>
    obtain ⟨k0, v0⟩ := h
    by_cases hk : k0 = k <;> simp [alookup, hk, ih]

theorem alookup_ains_self {α : Type} (m : List (String × α)) (k : String) (v : α) :
    alookup (ains m k v) k = ((alookup m k).or (some v)) := by
  unfold ains
  cases h : alookup m k with
  | some w => simp [h]
  | none => simp [h, alookup_append, alookup]

theorem alookup_ains_other {α : Type} (m : List (String × α)) (k k2 : String) (v : α)
    (hne : k ≠ k2) : alookup (ains m k v) k2 = alookup m k2 := by
  unfold ains
  cases h : alookup m k with
  | some w => simp
  | none => simp [alookup_append, alookup, hne]

theorem alookup_aset_self {α : Type} (m : List (String × α)) (k : String) (v : α) :
    alookup (aset m k v) k = some v := by
  induction m with
  | nil => simp [aset, alookup]
  | cons h t ih =>
    obtain ⟨k0, v0⟩ := h
    by_cases hk : k0 = k <;> simp [aset, alookup, hk, ih]

theorem alookup_aset_other {α : Type} (m : List (String × α)) (k k2 : String) (v : α)
    (hne : k ≠ k2) : alookup (aset m k v) k2 = alookup m k2 := by
  induction m with
  | nil => simp [aset, alookup, hne]
  | cons h t ih =>
    obtain ⟨k0, v0⟩ := h
    by_cases hk2 : k0 = k2
    · subst hk2
      simp [aset, alookup, Ne.symm hne]
    · by_cases hk : k0 = k <;> simp [aset, alookup, hk, hk2, hne, ih]

theorem alookup_amod_self {α : Type} (m : List (String × α)) (k : String) (f : α → α) :
    alookup (amod m k f) k = (alookup m k).map f := by
  induction m with
  | nil => simp [amod, alookup]
  | cons h t ih =>
    obtain ⟨k0, v0⟩ := h
    by_cases hk : k0 = k <;> simp [amod, alookup, hk, ih]

theorem alookup_amod_other {α : Type} (m : List (String × α)) (k k2 : String) (f : α → α)
    (hne : k ≠ k2) : alookup (amod m k f) k2 = alookup m k2 := by
  induction m with
  | nil => simp [amod]
  | cons h t ih =>
    obtain ⟨k0, v0⟩ := h
    by_cases hk2 : k0 = k2
    · subst hk2
      simp [amod, alookup, Ne.symm hne]
    · by_cases hk : k0 = k <;> simp [amod, alookup, hk, hk2, hne, ih]

theorem mem_ains {α : Type} {m : List (String × α)} {k : String} {v : α} {p : String × α}
    (h : p ∈ ains m k v) : p ∈ m ∨ p = (k, v) := by
  unfold ains at h
  by_cases hl : (alookup m k).isSome
  · simp [hl] at h
    exact Or.inl h
  · simp [hl] at h
    rcases h with h | h
    · exact Or.inl h
    · exact Or.inr (by simp [h])

theorem mem_amod {α : Type} {m : List (String × α)} {k : String} {f : α → α}
    {p : String × α} (h : p ∈ amod m k f) :
    p ∈ m ∨ ∃ v0, (k, v0) ∈ m ∧ p = (k, f v0) := by
  induction m with
  | nil => simp [amod] at h
  | cons h0 rest ih =>
    obtain ⟨k0, v0⟩ := h0
    by_cases hk : k0 = k
    · subst hk
      simp [amod] at h
      rcases h with h | h
      · exact Or.inr ⟨v0, by simp, h⟩
      · exact Or.inl (List.mem_cons_of_mem _ h)
    · simp [amod, hk] at h
      rcases h with h | h
      · exact Or.inl (by simp [h])
      · rcases ih h with h2 | ⟨w, hw, hp⟩
        · exact Or.inl (List.mem_cons_of_mem _ h2)
        · exact Or.inr ⟨w, List.mem_cons_of_mem _ hw, hp⟩

/-- All Objects and Items in a Type are checked. -/
def allNodesChecked (t : MetadataType) : Prop :=
  ∀ p ∈ t.childs, p.2.checked = true ∧ ∀ q ∈ p.2.childs, q.2.checked = true

theorem allNodesChecked_typeAddChild {t : MetadataType} {k : String} {o : MetadataObject}
    (ht : allNodesChecked t) (ho : o.checked = true)
    (hoc : ∀ q ∈ o.childs, q.2.checked = true) :
    allNodesChecked (typeAddChild t k o) := by
  intro p hp
  rcases mem_ains hp with h | h
  · exact ht p h
  · subst h
    exact ⟨ho, hoc⟩

theorem allNodesChecked_typeAddItemUnder {t : MetadataType} {ok ik : String}
    {it : MetadataItem} (ht : allNodesChecked t) (hit : it.checked = true) :
    allNodesChecked (typeAddItemUnder t ok ik it) := by
  intro p hp
  rcases mem_amod hp with h | ⟨v0, hv0, hp2⟩
  · exact ht p h
  · subst hp2
    have hbase := ht (ok, v0) hv0
    refine ⟨hbase.1, ?_⟩
    intro q hq
    rcases mem_ains hq with h2 | h2
    · exact hbase.2 q h2
    · subst h2
      exact hit

theorem allNodesChecked_addMemberObjectOnly {t : MetadataType} {g : Bool} {name : String}
    (ht : allNodesChecked t) : allNodesChecked (addMemberObjectOnly true g name t) := by
  unfold addMemberObjectOnly
  split
  · exact allNodesChecked_typeAddItemUnder
      (allNodesChecked_typeAddChild ht rfl (by simp [mkObject])) rfl
  · exact allNodesChecked_typeAddChild ht rfl (by simp [mkObject])

theorem allNodesChecked_addMemberObjectAndItem {t : MetadataType} {g : Bool}
    {name it : String} (ht : allNodesChecked t) :
    allNodesChecked (addMemberObjectAndItem true g name it t) := by
  unfold addMemberObjectAndItem
  exact allNodesChecked_typeAddItemUnder
    (allNodesChecked_typeAddChild ht rfl (by simp [mkObject])) rfl

theorem allNodesChecked_processMember {t : MetadataType} {g da : Bool}
    {nsParam : Option String} {m : PkgMember} (ht : allNodesChecked t) :
    allNodesChecked (processMember da nsParam true g t m) := by
  unfold processMember
  dsimp only
  repeat' split
  all_goals
    first
    | exact ht
    | exact allNodesChecked_addMemberObjectOnly ht
    | exact allNodesChecked_addMemberObjectAndItem ht

theorem listIndexOfAux_single_cons (x : Char) (rest : List Char) (c : Char) (i : Nat) :
    listIndexOfAux (x :: rest) [c] i =
      if x = c then some i else listIndexOfAux rest [c] (i + 1) := by
  simp [listIndexOfAux, listStartsWith]

theorem notMem_of_listIndexOfAux_none {l : List Char} {c : Char} {i : Nat}
    (h : listIndexOfAux l [c] i = none) : c ∉ l := by
  induction l generalizing i with
  | nil => simp
  | cons x rest ih =>
    rw [listIndexOfAux_single_cons] at h
    by_cases hx : x = c
    · simp [hx] at h
    · simp only [hx, if_false] at h
      simp only [List.mem_cons]
      push_neg
      exact ⟨fun he => hx he.symm, ih h⟩

theorem listIndexOfAux_single_append {a : List Char} {c : Char} (h : c ∉ a)
    (b : List Char) (i : Nat) :
    listIndexOfAux (a ++ c :: b) [c] i = some (i + a.length) := by
  induction a generalizing i with
  | nil => simp [listIndexOfAux_single_cons]
  | cons x rest ih =>
    have hx : ¬x = c := fun he => h (by simp [he])
    have hr : c ∉ rest := fun hm => h (List.mem_cons_of_mem _ hm)
    rw [List.cons_append, listIndexOfAux_single_cons, if_neg hx, ih hr]
    simp only [List.length_cons]
    congr 1
    omega

theorem jsIndexOf_append_single {a b : String} {c : Char} (h : c ∉ a.toList) :
    jsIndexOf (a ++ String.mk [c] ++ b) (String.mk [c]) = some a.toList.length := by
  have hl : (a ++ String.mk [c] ++ b).toList = a.toList ++ c :: b.toList := by simp
  show listIndexOfAux (a ++ String.mk [c] ++ b).toList [c] 0 = some a.toList.length
  rw [hl]
  simpa using listIndexOfAux_single_append h b.toList 0

theorem jsSubstring_zero_take {s : String} {k : Nat} (hk : k ≤ s.toList.length) :
    jsSubstring s 0 (k : Int) = String.mk (s.toList.take k) := by
  unfold jsSubstring
  dsimp only
  have h1 : (max 0 (min (0 : Int) (s.toList.length : Int))).toNat = 0 := by omega
  have h2 : (max 0 (min (k : Int) (s.toList.length : Int))).toNat = k := by omega
  rw [h1, h2]
  simp

theorem jsSubstringFrom_drop {s : String} {k : Nat} (hk : k ≤ s.toList.length) :
    jsSubstringFrom s (k : Int) = String.mk (s.toList.drop k) := by
  unfold jsSubstringFrom jsSubstring
  dsimp only
  have h1 : (max 0 (min (k : Int) (s.toList.length : Int))).toNat = k := by omega
  have h2 : (max 0 (min ((s.toList.length : Int)) (s.toList.length : Int))).toNat =
      s.toList.length := by omega
  rw [h1, h2]
  have h3 : min k s.toList.length = k := by omega
  have h4 : max k s.toList.length = s.toList.length := by omega
  rw [h3, h4]
  congr 1
  exact List.take_of_length_le (by simp)

/-- separatorFor always yields one of "/", "-", ".": never the wildcard. -/
theorem separatorFor_ne_star (x : String) : ¬separatorFor x = "*" := by
  unfold separatorFor
  split
  · decide
  · split <;> decide

theorem string_ne_of_toList_ne {s u : String} (h : ¬s.toList = u.toList) : ¬s = u :=
  fun he => h (congrArg String.toList he)

/-- Splitting behavior of one member with the category separator present:
the text before the first separator becomes the Object, the text after it
the Item (non-QuickAction categories). -/
theorem processMember_split_core {t : MetadataType} {g fp : Bool} {c : Char}
    {a b : String} (hsep : separatorFor t.name = String.mk [c])
    (ha : c ∉ a.toList) (hb : ¬b = "") :
    processMember true none fp g t (.strM (a ++ String.mk [c] ++ b)) =
      addMemberObjectAndItem fp g a b t := by
  have hcstar : ¬c = '*' := by
    intro he
    exact separatorFor_ne_star t.name (by rw [hsep, he])
  set objName := a ++ String.mk [c] ++ b with hobj
  have hlist : objName.toList = a.toList ++ c :: b.toList := by rw [hobj]; simp
  have hne : ¬objName = "" := by
    refine string_ne_of_toList_ne ?_
    rw [hlist]
    simp
  have hstar : ¬objName = "*" := by
    intro he
    have hc : c ∈ objName.toList := by rw [hlist]; simp
    rw [he] at hc
    exact hcstar (by simpa using hc)
  have hidx : jsIndexOf objName (String.mk [c]) = some a.toList.length :=
    jsIndexOf_append_single ha
  have hlen : a.toList.length ≤ objName.toList.length := by
    rw [hlist]; simp
  have hlen1 : a.toList.length + 1 ≤ objName.toList.length := by
    rw [hlist]; simp
  have hii : jsIndexOfI objName (String.mk [c]) = (a.toList.length : Int) := by
    unfold jsIndexOfI
    rw [hidx]
  have hname : jsSubstring objName 0 (jsIndexOfI objName (String.mk [c])) = a := by
    rw [hii, jsSubstring_zero_take hlen, hlist]
    rw [List.take_left]
    rfl
  have hitem : jsSubstringFrom objName (jsIndexOfI objName (String.mk [c]) + 1) = b := by
    rw [hii]
    have hcast : ((a.toList.length : Int) + 1) = ((a.toList.length + 1 : Nat) : Int) := by
      push_cast; ring
    rw [hcast, jsSubstringFrom_drop hlen1, hlist]
    have hassoc : a.toList ++ c :: b.toList = (a.toList ++ [c]) ++ b.toList := by simp
    have hl : a.toList.length + 1 = (a.toList ++ [c]).length := by simp
    rw [hassoc, hl, List.drop_left]
    rfl
  unfold processMember
  dsimp only
  rw [if_neg (by simpa [PkgMember.truthy] using hne)]
  rw [show PkgMember.objName (.strM objName) = objName from rfl]
  rw [if_neg hstar, hsep, hidx, hname]
  simp only [Option.isSome_some, if_true, hitem]
  rw [if_neg (by simpa using hb)]
  simp only [Option.getD_some]

/-- A member with an occurrence of the category separator is split at its
first occurrence into (Object, Item) — in every case except the
QuickAction "GlobalActions" reroute, excluded here by `hg` (the guard the
source tests before rerouting). -/
theorem processMember_split_first {t : MetadataType} {g fp : Bool} {c : Char}
    {a b : String} (hsep : separatorFor t.name = String.mk [c])
    (hg : ¬(t.name = MT.QUICK_ACTION ∧ b = a ∧ g = true))
    (ha : c ∉ a.toList) (hb : ¬b = "") :
    processMember true none fp g t (.strM (a ++ String.mk [c] ++ b)) =
      typeAddItemUnder (typeAddChild t a (mkObject a fp)) a b (mkItem b fp) := by
  rw [processMember_split_core hsep ha hb]
  unfold addMemberObjectAndItem
  dsimp only
  rw [if_neg hg]

/-- A self-named QuickAction member (`Sobj.Sobj`) is rerouted under the
"GlobalActions" Object when grouping is requested. -/
theorem processMember_split_quickAction_grouped {t : MetadataType} {fp : Bool}
    {a : String} (hq : t.name = MT.QUICK_ACTION) (ha : '.' ∉ a.toList)
    (hne : ¬a = "") :
    processMember true none fp true t (.strM (a ++ "." ++ a)) =
      typeAddItemUnder
        (typeAddChild t "GlobalActions" (mkObject "GlobalActions" fp))
        "GlobalActions" a (mkItem a fp) := by
  have hsep : separatorFor t.name = String.mk ['.'] := by
    rw [hq]; rfl
  show processMember true none fp true t (.strM (a ++ String.mk ['.'] ++ a)) = _
  rw [processMember_split_core hsep ha hne]
  unfold addMemberObjectAndItem
  dsimp only
  rw [if_pos ⟨hq, rfl, rfl⟩]

/-- A member with no occurrence of the category separator becomes a bare
Object with no Item (non-QuickAction categories). -/
theorem processMember_noSep {t : MetadataType} {g fp : Bool} {n : String}
    (hq : ¬t.name = MT.QUICK_ACTION)
    (hn : jsIndexOf n (separatorFor t.name) = none) (hstar : ¬n = "*")
    (hne : ¬n = "") :
    processMember true none fp g t (.strM n) = typeAddChild t n (mkObject n fp) := by
  unfold processMember
  dsimp only
  rw [if_neg (by simpa [PkgMember.truthy] using hne)]
  rw [show PkgMember.objName (.strM n) = n from rfl]
  rw [if_neg hstar, hn]
  simp only [Option.isSome_none, Bool.false_eq_true, if_false, if_true]
  unfold addMemberObjectOnly
  rw [if_neg hq]

/-- A QuickAction member with no separator gets a self-named Item, grouped
under "GlobalActions" when grouping is requested. -/
theorem processMember_noSep_quickAction {t : MetadataType} {g fp : Bool} {n : String}
    (hq : t.name = MT.QUICK_ACTION) (hn : jsIndexOf n "." = none)
    (hstar : ¬n = "*") (hne : ¬n = "") :
    processMember true none fp g t (.strM n) =
      typeAddItemUnder
        (typeAddChild t (if g then "GlobalActions" else n)
          (mkObject (if g then "GlobalActions" else n) fp))
        (if g then "GlobalActions" else n) n (mkItem n fp) := by
  have hsep : separatorFor t.name = "." := by
    rw [hq]; decide
  unfold processMember
  dsimp only
  rw [if_neg (by simpa [PkgMember.truthy] using hne)]
  rw [show PkgMember.objName (.strM n) = n from rfl]
  rw [if_neg hstar, hsep, hn]
  simp only [Option.isSome_none, Bool.false_eq_true, if_false, if_true]
  unfold addMemberObjectOnly
  rw [if_pos hq]

theorem processMember_name_checked (da : Bool) (nsParam : Option String) (fp g : Bool)
    (t : MetadataType) (m : PkgMember) :
    (processMember da nsParam fp g t m).name = t.name ∧
      (processMember da nsParam fp g t m).checked = t.checked := by
  unfold processMember addMemberObjectOnly addMemberObjectAndItem typeAddChild
    typeAddItemUnder
  dsimp only
  repeat' split
  all_goals simp

theorem createMetadataObjectsFromArray_name_checked (ms : List PkgMember)
    (t : MetadataType) (da : Bool) (nsParam : Option String) (fp g : Bool) :
    (createMetadataObjectsFromArray t ms da nsParam fp g).name = t.name ∧
      (createMetadataObjectsFromArray t ms da nsParam fp g).checked = t.checked := by
  induction ms generalizing t with
  | nil => exact ⟨rfl, rfl⟩
  | cons m rest ih =>
    have hstep := processMember_name_checked da nsParam fp g t m
    have hrest := ih (processMember da nsParam fp g t m)
    simp only [createMetadataObjectsFromArray, List.foldl_cons] at hrest ⊢
    exact ⟨hrest.1.trans hstep.1, hrest.2.trans hstep.2⟩

theorem allNodesChecked_createMetadataObjectsFromArray (ms : List PkgMember)
    {t : MetadataType} {da : Bool} {nsParam : Option String} {g : Bool}
    (ht : allNodesChecked t) :
    allNodesChecked (createMetadataObjectsFromArray t ms da nsParam true g) := by
  induction ms generalizing t with
  | nil => exact ht
  | cons m rest ih =>
    simp only [createMetadataObjectsFromArray, List.foldl_cons] at ih ⊢
    exact ih (allNodesChecked_processMember ht)

theorem processMember_wildcard (da : Bool) (nsParam : Option String) (fp g : Bool)
    (t : MetadataType) : processMember da nsParam fp g t (.strM "*") = t := by
  simp [processMember, PkgMember.truthy, PkgMember.objName]

theorem createMetadataObjectsFromArray_skip_wildcard (ms : List String)
    (t : MetadataType) (da : Bool) (nsParam : Option String) (fp g : Bool) :
    createMetadataObjectsFromArray t (ms.map PkgMember.strM) da nsParam fp g =
      createMetadataObjectsFromArray t
        ((ms.filter (fun s => ¬s = "*")).map PkgMember.strM) da nsParam fp g := by
  induction ms generalizing t with
  | nil => rfl
  | cons m rest ih =>
    by_cases hm : m = "*"
    · subst hm
      simp only [List.map_cons, createMetadataObjectsFromArray, List.foldl_cons,
        processMember_wildcard, List.filter_cons]
      simpa [createMetadataObjectsFromArray] using ih t
    · simp only [List.map_cons, createMetadataObjectsFromArray, List.foldl_cons,
        List.filter_cons, hm]
      simpa [createMetadataObjectsFromArray, hm] using
        ih (processMember da nsParam fp g t (.strM m))

theorem alookup_mem {α : Type} {m : List (String × α)} {k : String} {v : α}
    (h : alookup m k = some v) : (k, v) ∈ m := by
  induction m with
  | nil => simp [alookup] at h
  | cons p rest ih =>
    obtain ⟨k0, v0⟩ := p
    by_cases hk : k0 = k
    · subst hk
      simp [alookup] at h
      simp [h]
    · simp [alookup, hk] at h
      exact List.mem_cons_of_mem _ (ih h)

theorem alookup_amod_isSome {α : Type} (m : List (String × α)) (k k2 : String)
    (f : α → α) : (alookup (amod m k f) k2).isSome = (alookup m k2).isSome := by
  by_cases h : k = k2
  · subst h
    rw [alookup_amod_self]
    cases alookup m k <;> simp
  · rw [alookup_amod_other _ _ _ _ h]

theorem objChecked_amod_self (cat : Catalog) (tn ck : String)
    (f : MetadataType → MetadataType) :
    objChecked (amod cat tn f) tn ck =
      (alookup cat tn).bind (fun t =>
        (alookup (f t).childs ck).map (fun o => o.checked)) := by
  unfold objChecked
  rw [alookup_amod_self]
  cases alookup cat tn <;> simp

theorem objChecked_amod_other {tn tn2 : String} (cat : Catalog) (ck : String)
    (f : MetadataType → MetadataType) (h : ¬tn = tn2) :
    objChecked (amod cat tn f) tn2 ck = objChecked cat tn2 ck := by
  unfold objChecked
  rw [alookup_amod_other _ _ _ _ h]

theorem itemChecked_amod_self (cat : Catalog) (tn ck gk : String)
    (f : MetadataType → MetadataType) :
    itemChecked (amod cat tn f) tn ck gk =
      (alookup cat tn).bind (fun t => (alookup (f t).childs ck).bind (fun o =>
        (alookup o.childs gk).map (fun it => it.checked))) := by
  unfold itemChecked
  rw [alookup_amod_self]
  cases alookup cat tn <;> simp

theorem itemChecked_amod_other {tn tn2 : String} (cat : Catalog) (ck gk : String)
    (f : MetadataType → MetadataType) (h : ¬tn = tn2) :
    itemChecked (amod cat tn f) tn2 ck gk = itemChecked cat tn2 ck gk := by
  unfold itemChecked
  rw [alookup_amod_other _ _ _ _ h]

theorem objChecked_mergeGrandStep (tn ck : String) (acc : Catalog) (gk : String)
    (item : MetadataItem) (tn2 ck2 : String) :
    objChecked (mergeGrandStep tn ck acc gk item) tn2 ck2 =
      objChecked acc tn2 ck2 := by
  unfold mergeGrandStep
  by_cases htn : tn = tn2
  · subst htn
    rw [objChecked_amod_self]
    unfold objChecked
    cases ht : alookup acc tn with
    | none => simp
    | some t =>
      simp only [Option.some_bind]
      by_cases hc : ck = ck2
      · subst hc
        rw [alookup_amod_self]
        cases alookup t.childs ck <;> simp
      · rw [alookup_amod_other _ _ _ _ hc]
  · exact objChecked_amod_other _ _ _ htn

theorem objChecked_deployObjStep_preserve {acc : Catalog} {tn ck : String}
    {child : MetadataObject} {tn2 ck2 : String} {v : Bool}
    (h : objChecked acc tn2 ck2 = some v) :
    objChecked (deployObjStep tn acc ck child) tn2 ck2 = some v := by
  unfold deployObjStep
  by_cases htn : tn = tn2
  · subst htn
    rw [objChecked_amod_self]
    unfold objChecked at h
    cases ht : alookup acc tn with
    | none => rw [ht] at h; simp at h
    | some t =>
      rw [ht] at h
      simp only [Option.some_bind] at h
      simp only [Option.some_bind]
      by_cases hc : ck = ck2
      · subst hc
        cases ho : alookup t.childs ck with
        | none => rw [ho] at h; simp at h
        | some o =>
          rw [ho] at h
          have : alookup (ains t.childs ck child) ck = some o := by
            rw [alookup_ains_self, ho]
            rfl
          rw [this]
          exact h
      · rw [alookup_ains_other _ _ _ _ hc]
        exact h
  · rw [objChecked_amod_other _ _ _ htn]
    exact h

theorem objChecked_deployObjStep_self {acc : Catalog} {tn ck : String}
    {child : MetadataObject} (h : (alookup acc tn).isSome = true) :
    (objChecked (deployObjStep tn acc ck child) tn ck).isSome = true := by
  unfold deployObjStep
  rw [objChecked_amod_self]
  cases ht : alookup acc tn with
  | none => rw [ht] at h; simp at h
  | some t =>
    simp only [Option.some_bind]
    rw [alookup_ains_self]
    cases alookup t.childs ck <;> simp

theorem objChecked_deleteObjStep_noDemote {acc : Catalog} {tn ck : String}
    {child : MetadataObject} {tn2 ck2 : String}
    (h : objChecked acc tn2 ck2 = some true) :
    objChecked (deleteObjStep tn acc ck child) tn2 ck2 = some true := by
  unfold deleteObjStep
  by_cases htn : tn = tn2
  · subst htn
    rw [objChecked_amod_self]
    unfold objChecked at h
    cases ht : alookup acc tn with
    | none => rw [ht] at h; simp at h
    | some t =>
      rw [ht] at h
      simp only [Option.some_bind] at h ⊢
      cases hck : alookup t.childs ck with
      | none =>
        rw [alookup_append]
        cases hc2 : alookup t.childs ck2 with
        | none => rw [hc2] at h; simp at h
        | some o =>
          rw [hc2] at h
          simp at h
          simp [h]
      | some o0 =>
        by_cases hch : child.checked
        · simp only [hch, if_true]
          by_cases hc : ck = ck2
          · subst hc
            rw [alookup_amod_self, hck]
            rfl
          · rw [alookup_amod_other _ _ _ _ hc]
            exact h
        · simp only [hch, if_false]
          exact h
  · rw [objChecked_amod_other _ _ _ htn]
    exact h

theorem objChecked_deleteObjStep_promote {acc : Catalog} {tn ck : String}
    {child : MetadataObject} (hp : (objChecked acc tn ck).isSome = true)
    (hc : child.checked = true) :
    objChecked (deleteObjStep tn acc ck child) tn ck = some true := by
  unfold deleteObjStep
  rw [objChecked_amod_self]
  unfold objChecked at hp
  cases ht : alookup acc tn with
  | none => rw [ht] at hp; simp at hp
  | some t =>
    rw [ht] at hp
    simp only [Option.some_bind] at hp ⊢
    cases hck : alookup t.childs ck with
    | none => rw [hck] at hp; simp at hp
    | some o0 =>
      simp only [hc, if_true]
      rw [alookup_amod_self, hck]
      rfl

theorem objChecked_deleteObjStep_isSome {acc : Catalog} {tn ck : String}
    {child : MetadataObject} {tn2 ck2 : String}
    (h : (objChecked acc tn2 ck2).isSome = true) :
    (objChecked (deleteObjStep tn acc ck child) tn2 ck2).isSome = true := by
  unfold deleteObjStep
  by_cases htn : tn = tn2
  · subst htn
    rw [objChecked_amod_self]
    unfold objChecked at h
    cases ht : alookup acc tn with
    | none => rw [ht] at h; simp at h
    | some t =>
      rw [ht] at h
      simp only [Option.some_bind] at h ⊢
      cases hck : alookup t.childs ck with
      | none =>
        rw [alookup_append]
        cases hc2 : alookup t.childs ck2 with
        | none => rw [hc2] at h; simp at h
        | some o => simp [hc2]
      | some o0 =>
        by_cases hch : child.checked = true
        · simp only [hch, if_true]
          by_cases hc : ck = ck2
          · subst hc
            rw [alookup_amod_self, hck]
            rfl
          · rw [alookup_amod_other _ _ _ _ hc]
            exact h
        · simp only [hch, if_false]
          exact h
  · rw [objChecked_amod_other _ _ _ htn]
    exact h

theorem itemChecked_deployObjStep_preserve {acc : Catalog} {tn ck : String}
    {child : MetadataObject} {tn2 ck2 gk : String} {v : Bool}
    (h : itemChecked acc tn2 ck2 gk = some v) :
    itemChecked (deployObjStep tn acc ck child) tn2 ck2 gk = some v := by
  unfold deployObjStep
  by_cases htn : tn = tn2
  · subst htn
    rw [itemChecked_amod_self]
    unfold itemChecked at h
    cases ht : alookup acc tn with
    | none => rw [ht] at h; simp at h
    | some t =>
      rw [ht] at h
      simp only [Option.some_bind] at h ⊢
      by_cases hc : ck = ck2
      · subst hc
        cases ho : alookup t.childs ck with
        | none => rw [ho] at h; simp at h
        | some o =>
          rw [ho] at h
          have hkeep : alookup (ains t.childs ck child) ck = some o := by
            rw [alookup_ains_self, ho]
            rfl
          rw [hkeep]
          exact h
      · rw [alookup_ains_other _ _ _ _ hc]
        exact h
  · rw [itemChecked_amod_other _ _ _ _ htn]
    exact h

theorem itemChecked_deleteObjStep_preserve {acc : Catalog} {tn ck : String}
    {child : MetadataObject} {tn2 ck2 gk : String} {v : Bool}
    (h : itemChecked acc tn2 ck2 gk = some v) :
    itemChecked (deleteObjStep tn acc ck child) tn2 ck2 gk = some v := by
  unfold deleteObjStep
  by_cases htn : tn = tn2
  · subst htn
    rw [itemChecked_amod_self]
    unfold itemChecked at h
    cases ht : alookup acc tn with
    | none => rw [ht] at h; simp at h
    | some t =>
      rw [ht] at h
      simp only [Option.some_bind] at h ⊢
      cases hck : alookup t.childs ck with
      | none =>
        rw [alookup_append]
        cases hc2 : alookup t.childs ck2 with
        | none => rw [hc2] at h; simp at h
        | some o =>
          rw [hc2] at h
          simp [h]
      | some o0 =>
        by_cases hch : child.checked = true
        · simp only [hch, if_true]
          by_cases hc : ck = ck2
          · subst hc
            rw [alookup_amod_self, hck]
            simp only [Option.map_some', Option.some_bind]
            rw [hck] at h
            simpa using h
          · rw [alookup_amod_other _ _ _ _ hc]
            exact h
        · simp only [hch, if_false]
          exact h
  · rw [itemChecked_amod_other _ _ _ _ htn]
    exact h

theorem itemChecked_mergeGrandStep_preserve {tn ck : String} {acc : Catalog}
    {gk : String} {item : MetadataItem} {tn2 ck2 gk2 : String} {v : Bool}
    (h : itemChecked acc tn2 ck2 gk2 = some v) :
    itemChecked (mergeGrandStep tn ck acc gk item) tn2 ck2 gk2 = some v := by
  unfold mergeGrandStep
  by_cases htn : tn = tn2
  · subst htn
    rw [itemChecked_amod_self]
    unfold itemChecked at h
    cases ht : alookup acc tn with
    | none => rw [ht] at h; simp at h
    | some t =>
      rw [ht] at h
      simp only [Option.some_bind] at h ⊢
      by_cases hc : ck = ck2
      · subst hc
        rw [alookup_amod_self]
        cases ho : alookup t.childs ck with
        | none => rw [ho] at h; simp at h
        | some o =>
          rw [ho] at h
          simp only [Option.map_some', Option.some_bind] at h ⊢
          by_cases hg : gk = gk2
          · subst hg
            cases hi : alookup o.childs gk with
            | none => rw [hi] at h; simp at h
            | some it0 =>
              rw [hi] at h
              have hkeep : alookup (ains o.childs gk item) gk = some it0 := by
                rw [alookup_ains_self, hi]
                rfl
              rw [hkeep]
              exact h
          · rw [alookup_ains_other _ _ _ _ hg]
            exact h
      · rw [alookup_amod_other _ _ _ _ hc]
        exact h
  · rw [itemChecked_amod_other _ _ _ _ htn]
    exact h

theorem itemChecked_mergeGrandStep_self {tn ck : String} {acc : Catalog}
    {gk : String} {item : MetadataItem}
    (h : (objChecked acc tn ck).isSome = true) :
    (itemChecked (mergeGrandStep tn ck acc gk item) tn ck gk).isSome = true := by
  unfold mergeGrandStep
  rw [itemChecked_amod_self]
  unfold objChecked at h
  cases ht : alookup acc tn with
  | none => rw [ht] at h; simp at h
  | some t =>
    rw [ht] at h
    simp only [Option.some_bind] at h ⊢
    cases ho : alookup t.childs ck with
    | none => rw [ho] at h; simp at h
    | some o =>
      rw [alookup_amod_self, ho]
      simp only [Option.map_some', Option.some_bind]
      rw [alookup_ains_self]
      cases alookup o.childs gk <;> simp

theorem objChecked_grandFold (tn ck : String) (items : List (String × MetadataItem))
    (acc : Catalog) (tn2 ck2 : String) :
    objChecked (items.foldl (fun a q => mergeGrandStep tn ck a q.1 q.2) acc) tn2 ck2 =
      objChecked acc tn2 ck2 := by
  induction items generalizing acc with
  | nil => rfl
  | cons q rest ih =>
    rw [List.foldl_cons, ih, objChecked_mergeGrandStep]

theorem alookup_grandFold_isSome (tn ck : String)
    (items : List (String × MetadataItem)) (acc : Catalog) (k : String) :
    (alookup (items.foldl (fun a q => mergeGrandStep tn ck a q.1 q.2) acc) k).isSome =
      (alookup acc k).isSome := by
  induction items generalizing acc with
  | nil => rfl
  | cons q rest ih =>
    rw [List.foldl_cons, ih]
    unfold mergeGrandStep
    exact alookup_amod_isSome _ _ _ _

theorem itemChecked_grandFold_preserve {tn ck : String}
    {items : List (String × MetadataItem)} {acc : Catalog} {tn2 ck2 gk2 : String}
    {v : Bool} (h : itemChecked acc tn2 ck2 gk2 = some v) :
    itemChecked (items.foldl (fun a q => mergeGrandStep tn ck a q.1 q.2) acc)
      tn2 ck2 gk2 = some v := by
  induction items generalizing acc with
  | nil => exact h
  | cons q rest ih =>
    rw [List.foldl_cons]
    exact ih (itemChecked_mergeGrandStep_preserve h)

theorem itemChecked_grandFold_isSome {tn ck : String}
    {items : List (String × MetadataItem)} {acc : Catalog} {tn2 ck2 gk2 : String}
    (h : (itemChecked acc tn2 ck2 gk2).isSome = true) :
    (itemChecked (items.foldl (fun a q => mergeGrandStep tn ck a q.1 q.2) acc)
      tn2 ck2 gk2).isSome = true := by
  obtain ⟨v, hv⟩ := Option.isSome_iff_exists.mp h
  rw [itemChecked_grandFold_preserve hv]
  rfl

theorem itemChecked_grandFold_new {tn ck : String}
    {items : List (String × MetadataItem)} {acc : Catalog} {gk : String}
    {it : MetadataItem} (hmem : (gk, it) ∈ items)
    (hobj : (objChecked acc tn ck).isSome = true) :
    (itemChecked (items.foldl (fun a q => mergeGrandStep tn ck a q.1 q.2) acc)
      tn ck gk).isSome = true := by
  obtain ⟨l1, l2, rfl⟩ := List.append_of_mem hmem
  rw [List.foldl_append, List.foldl_cons]
  have hobj1 : (objChecked (l1.foldl (fun a q => mergeGrandStep tn ck a q.1 q.2) acc)
      tn ck).isSome = true := by
    rw [objChecked_grandFold]
    exact hobj
  exact itemChecked_grandFold_isSome (itemChecked_mergeGrandStep_self hobj1)

theorem objChecked_deployBodyStep_preserve {tn : String} {acc : Catalog}
    {p : String × MetadataObject} {tn2 ck2 : String} {v : Bool}
    (h : objChecked acc tn2 ck2 = some v) :
    objChecked (deployBodyStep tn acc p) tn2 ck2 = some v := by
  unfold deployBodyStep
  dsimp only
  split
  · rw [objChecked_grandFold]
    exact objChecked_deployObjStep_preserve h
  · exact objChecked_deployObjStep_preserve h

theorem itemChecked_deployBodyStep_preserve {tn : String} {acc : Catalog}
    {p : String × MetadataObject} {tn2 ck2 gk2 : String} {v : Bool}
    (h : itemChecked acc tn2 ck2 gk2 = some v) :
    itemChecked (deployBodyStep tn acc p) tn2 ck2 gk2 = some v := by
  unfold deployBodyStep
  dsimp only
  split
  · exact itemChecked_grandFold_preserve (itemChecked_deployObjStep_preserve h)
  · exact itemChecked_deployObjStep_preserve h

theorem alookup_deployBodyStep_isSome {tn : String} {acc : Catalog}
    {p : String × MetadataObject} {k : String}
    (h : (alookup acc k).isSome = true) :
    (alookup (deployBodyStep tn acc p) k).isSome = true := by
  unfold deployBodyStep deployObjStep
  dsimp only
  split
  · rw [alookup_grandFold_isSome, alookup_amod_isSome]
    exact h
  · rw [alookup_amod_isSome]
    exact h

theorem objChecked_deployFold_preserve {tn : String}
    {childs : List (String × MetadataObject)} {acc : Catalog} {tn2 ck2 : String}
    {v : Bool} (h : objChecked acc tn2 ck2 = some v) :
    objChecked (childs.foldl (deployBodyStep tn) acc) tn2 ck2 = some v := by
  induction childs generalizing acc with
  | nil => exact h
  | cons p rest ih =>
    rw [List.foldl_cons]
    exact ih (objChecked_deployBodyStep_preserve h)

theorem objChecked_deployFold_isSome {tn : String}
    {childs : List (String × MetadataObject)} {acc : Catalog} {tn2 ck2 : String}
    (h : (objChecked acc tn2 ck2).isSome = true) :
    (objChecked (childs.foldl (deployBodyStep tn) acc) tn2 ck2).isSome = true := by
  obtain ⟨v, hv⟩ := Option.isSome_iff_exists.mp h
  rw [objChecked_deployFold_preserve hv]
  rfl

theorem itemChecked_deployFold_preserve {tn : String}
    {childs : List (String × MetadataObject)} {acc : Catalog} {tn2 ck2 gk2 : String}
    {v : Bool} (h : itemChecked acc tn2 ck2 gk2 = some v) :
    itemChecked (childs.foldl (deployBodyStep tn) acc) tn2 ck2 gk2 = some v := by
  induction childs generalizing acc with
  | nil => exact h
  | cons p rest ih =>
    rw [List.foldl_cons]
    exact ih (itemChecked_deployBodyStep_preserve h)

theorem itemChecked_deployFold_isSome {tn : String}
    {childs : List (String × MetadataObject)} {acc : Catalog} {tn2 ck2 gk2 : String}
    (h : (itemChecked acc tn2 ck2 gk2).isSome = true) :
    (itemChecked (childs.foldl (deployBodyStep tn) acc) tn2 ck2 gk2).isSome = true := by
  obtain ⟨v, hv⟩ := Option.isSome_iff_exists.mp h
  rw [itemChecked_deployFold_preserve hv]
  rfl

theorem alookup_deployFold_isSome {tn : String}
    {childs : List (String × MetadataObject)} {acc : Catalog} {k : String}
    (h : (alookup acc k).isSome = true) :
    (alookup (childs.foldl (deployBodyStep tn) acc) k).isSome = true := by
  induction childs generalizing acc with
  | nil => exact h
  | cons p rest ih =>
    rw [List.foldl_cons]
    exact ih (alookup_deployBodyStep_isSome h)

theorem deployFold_contributed_present {tn : String}
    {childs : List (String × MetadataObject)} {acc : Catalog}
    {p : String × MetadataObject} (hmem : p ∈ childs)
    (htn : (alookup acc tn).isSome = true) :
    (objChecked (childs.foldl (deployBodyStep tn) acc) tn p.1).isSome = true := by
  obtain ⟨l1, l2, rfl⟩ := List.append_of_mem hmem
  rw [List.foldl_append, List.foldl_cons]
  have htn1 : (alookup (l1.foldl (deployBodyStep tn) acc) tn).isSome = true :=
    alookup_deployFold_isSome htn
  refine objChecked_deployFold_isSome ?_
  unfold deployBodyStep
  dsimp only
  split
  · rw [objChecked_grandFold]
    exact objChecked_deployObjStep_self htn1
  · exact objChecked_deployObjStep_self htn1

theorem deployFold_contributed_item_present {tn : String}
    {childs : List (String × MetadataObject)} {acc : Catalog}
    {p : String × MetadataObject} {gk : String} {it : MetadataItem}
    (hmem : p ∈ childs) (hit : (gk, it) ∈ p.2.childs)
    (htn : (alookup acc tn).isSome = true) :
    (itemChecked (childs.foldl (deployBodyStep tn) acc) tn p.1 gk).isSome = true := by
  obtain ⟨l1, l2, rfl⟩ := List.append_of_mem hmem
  rw [List.foldl_append, List.foldl_cons]
  have htn1 : (alookup (l1.foldl (deployBodyStep tn) acc) tn).isSome = true :=
    alookup_deployFold_isSome htn
  refine itemChecked_deployFold_isSome ?_
  unfold deployBodyStep
  dsimp only
  rw [if_pos (List.ne_nil_of_mem hit)]
  exact itemChecked_grandFold_new hit (objChecked_deployObjStep_self htn1)

theorem objChecked_deleteBodyStep_noDemote {tn : String} {acc : Catalog}
    {p : String × MetadataObject} {tn2 ck2 : String}
    (h : objChecked acc tn2 ck2 = some true) :
    objChecked (deleteBodyStep tn acc p) tn2 ck2 = some true := by
  unfold deleteBodyStep
  dsimp only
  split
  · rw [objChecked_grandFold]
    exact objChecked_deleteObjStep_noDemote h
  · exact objChecked_deleteObjStep_noDemote h

theorem objChecked_deleteBodyStep_isSome {tn : String} {acc : Catalog}
    {p : String × MetadataObject} {tn2 ck2 : String}
    (h : (objChecked acc tn2 ck2).isSome = true) :
    (objChecked (deleteBodyStep tn acc p) tn2 ck2).isSome = true := by
  unfold deleteBodyStep
  dsimp only
  split
  · rw [objChecked_grandFold]
    exact objChecked_deleteObjStep_isSome h
  · exact objChecked_deleteObjStep_isSome h

theorem itemChecked_deleteBodyStep_preserve {tn : String} {acc : Catalog}
    {p : String × MetadataObject} {tn2 ck2 gk2 : String} {v : Bool}
    (h : itemChecked acc tn2 ck2 gk2 = some v) :
    itemChecked (deleteBodyStep tn acc p) tn2 ck2 gk2 = some v := by
  unfold deleteBodyStep
  dsimp only
  split
  · exact itemChecked_grandFold_preserve (itemChecked_deleteObjStep_preserve h)
  · exact itemChecked_deleteObjStep_preserve h

theorem objChecked_deleteFold_noDemote {tn : String}
    {childs : List (String × MetadataObject)} {acc : Catalog} {tn2 ck2 : String}
    (h : objChecked acc tn2 ck2 = some true) :
    objChecked (childs.foldl (deleteBodyStep tn) acc) tn2 ck2 = some true := by
  induction childs generalizing acc with
  | nil => exact h
  | cons p rest ih =>
    rw [List.foldl_cons]
    exact ih (objChecked_deleteBodyStep_noDemote h)

theorem objChecked_deleteFold_isSome {tn : String}
    {childs : List (String × MetadataObject)} {acc : Catalog} {tn2 ck2 : String}
    (h : (objChecked acc tn2 ck2).isSome = true) :
    (objChecked (childs.foldl (deleteBodyStep tn) acc) tn2 ck2).isSome = true := by
  induction childs generalizing acc with
  | nil => exact h
  | cons p rest ih =>
    rw [List.foldl_cons]
    exact ih (objChecked_deleteBodyStep_isSome h)

theorem itemChecked_deleteFold_preserve {tn : String}
    {childs : List (String × MetadataObject)} {acc : Catalog} {tn2 ck2 gk2 : String}
    {v : Bool} (h : itemChecked acc tn2 ck2 gk2 = some v) :
    itemChecked (childs.foldl (deleteBodyStep tn) acc) tn2 ck2 gk2 = some v := by
  induction childs generalizing acc with
  | nil => exact h
  | cons p rest ih =>
    rw [List.foldl_cons]
    exact ih (itemChecked_deleteBodyStep_preserve h)

theorem deleteFold_promote {tn : String} {childs : List (String × MetadataObject)}
    {acc : Catalog} {p : String × MetadataObject} (hmem : p ∈ childs)
    (hch : p.2.checked = true) (hp : (objChecked acc tn p.1).isSome = true) :
    objChecked (childs.foldl (deleteBodyStep tn) acc) tn p.1 = some true := by
  obtain ⟨l1, l2, rfl⟩ := List.append_of_mem hmem
  rw [List.foldl_append, List.foldl_cons]
  have hp1 : (objChecked (l1.foldl (deleteBodyStep tn) acc) tn p.1).isSome = true :=
    objChecked_deleteFold_isSome hp
  refine objChecked_deleteFold_noDemote ?_
  unfold deleteBodyStep
  dsimp only
  split
  · rw [objChecked_grandFold]
    exact objChecked_deleteObjStep_promote hp1 hch
  · exact objChecked_deleteObjStep_promote hp1 hch

theorem objChecked_ains_fresh {deploy : Catalog} {tn : String} {fresh : MetadataType}
    {tn2 ck2 : String} {v : Bool} (h : objChecked deploy tn2 ck2 = some v) :
    objChecked (ains deploy tn fresh) tn2 ck2 = some v := by
  unfold ains
  split
  · exact h
  · unfold objChecked at h ⊢
    rw [alookup_append]
    cases ht : alookup deploy tn2 with
    | none => rw [ht] at h; simp at h
    | some t =>
      rw [ht] at h
      simp [h]

theorem itemChecked_ains_fresh {del : Catalog} {tn : String} {fresh : MetadataType}
    {tn2 ck2 gk2 : String} {v : Bool} (h : itemChecked del tn2 ck2 gk2 = some v) :
    itemChecked (ains del tn fresh) tn2 ck2 gk2 = some v := by
  unfold ains
  split
  · exact h
  · unfold itemChecked at h ⊢
    rw [alookup_append]
    cases ht : alookup del tn2 with
    | none => rw [ht] at h; simp at h
    | some t =>
      rw [ht] at h
      simp [h]

theorem alookup_ains_self_isSome {α : Type} (m : List (String × α)) (k : String)
    (v : α) : (alookup (ains m k v) k).isSome = true := by
  rw [alookup_ains_self]
  cases alookup m k <;> simp

theorem objChecked_ains_isSome {deploy : Catalog} {tn : String}
    {fresh : MetadataType} {tn2 ck2 : String}
    (h : (objChecked deploy tn2 ck2).isSome = true) :
    (objChecked (ains deploy tn fresh) tn2 ck2).isSome = true := by
  obtain ⟨v, hv⟩ := Option.isSome_iff_exists.mp h
  rw [objChecked_ains_fresh hv]
  rfl

theorem objChecked_ains_emptyType_none {deploy : Catalog} {tn : String}
    {fresh : MetadataType} {tn2 ck2 : String} (hf : fresh.childs = [])
    (h : objChecked deploy tn2 ck2 = none) :
    objChecked (ains deploy tn fresh) tn2 ck2 = none := by
  unfold ains
  split
  · exact h
  · unfold objChecked at h ⊢
    rw [alookup_append]
    cases ht : alookup deploy tn2 with
    | some t =>
      rw [ht] at h
      simp only [Option.or_some, Option.or]
      exact h
    | none =>
      simp only [Option.or]
      by_cases hk : tn = tn2
      · subst hk
        simp [alookup, hf]
      · simp [alookup, hk]

theorem objChecked_deployObjStep_new {acc : Catalog} {tn ck : String}
    {child : MetadataObject} (htn : (alookup acc tn).isSome = true)
    (h : objChecked acc tn ck = none) :
    objChecked (deployObjStep tn acc ck child) tn ck = some child.checked := by
  obtain ⟨t, ht⟩ := Option.isSome_iff_exists.mp htn
  have hck : alookup t.childs ck = none := by
    unfold objChecked at h
    rw [ht] at h
    simp only [Option.some_bind] at h
    cases hc : alookup t.childs ck with
    | none => rfl
    | some o => rw [hc] at h; simp at h
  unfold deployObjStep
  rw [objChecked_amod_self, ht]
  simp only [Option.some_bind]
  rw [alookup_ains_self, hck]
  rfl

theorem alookup_insSorted {α : Type} (x : String × α) (l : List (String × α))
    (k : String) : alookup (insSorted x l) k = alookup (x :: l) k := by
  induction l with
  | nil => rfl
  | cons y rest ih =>
    by_cases hy : y.1 < x.1
    · simp only [insSorted, if_pos hy]
      by_cases hyk : y.1 = k
      · have hxk : ¬x.1 = k := fun he => (ne_of_lt hy) (hyk.trans he.symm)
        simp [alookup, hyk, hxk]
      · by_cases hxk : x.1 = k <;> simp [alookup, hyk, hxk, ih]
    · simp [insSorted, hy]

theorem alookup_sortByKey {α : Type} (l : List (String × α)) (k : String) :
    alookup (sortByKey l) k = alookup l k := by
  induction l with
  | nil => rfl
  | cons x rest ih =>
    rw [sortByKey, alookup_insSorted]
    by_cases hx : x.1 = k <;> simp [alookup, hx, ih]

theorem alookup_mapVal {α β : Type} (l : List (String × α)) (f : α → β) (k : String) :
    alookup (l.map (fun p => (p.1, f p.2))) k = (alookup l k).map f := by
  induction l with
  | nil => rfl
  | cons p rest ih =>
    by_cases hp : p.1 = k <;> simp [alookup, hp, ih]

theorem objChecked_orderMetadata (cat : Catalog) (tn ck : String) :
    objChecked (orderMetadata cat) tn ck = objChecked cat tn ck := by
  unfold orderMetadata objChecked
  rw [alookup_mapVal, alookup_sortByKey]
  cases ht : alookup cat tn with
  | none => rfl
  | some t =>
    simp only [Option.map_some', Option.some_bind]
    unfold sortTypeEntry
    dsimp only
    rw [alookup_mapVal, alookup_sortByKey]
    cases alookup t.childs ck <;> simp [sortObjectEntry]

theorem itemChecked_orderMetadata (cat : Catalog) (tn ck gk : String) :
    itemChecked (orderMetadata cat) tn ck gk = itemChecked cat tn ck gk := by
  unfold orderMetadata itemChecked
  rw [alookup_mapVal, alookup_sortByKey]
  cases ht : alookup cat tn with
  | none => rfl
  | some t =>
    simp only [Option.map_some', Option.some_bind]
    unfold sortTypeEntry
    dsimp only
    rw [alookup_mapVal, alookup_sortByKey]
    cases ho : alookup t.childs ck with
    | none => rfl
    | some o =>
      simp only [Option.map_some', Option.some_bind]
      unfold sortObjectEntry
      dsimp only
      rw [alookup_sortByKey]

theorem objChecked_uncheckObject_self {cat : Catalog} {tn ck : String}
    (h : (objChecked cat tn ck).isSome = true) :
    objChecked (uncheckObject cat tn ck) tn ck = some false := by
  unfold uncheckObject
  rw [objChecked_amod_self]
  unfold objChecked at h
  cases ht : alookup cat tn with
  | none => rw [ht] at h; simp at h
  | some t =>
    rw [ht] at h
    simp only [Option.some_bind] at h ⊢
    cases ho : alookup t.childs ck with
    | none => rw [ho] at h; simp at h
    | some o =>
      simp only [ho]
      by_cases hch : o.checked = true
      · simp only [hch, if_true]
        rw [alookup_amod_self, ho]
        rfl
      · rw [Bool.not_eq_true] at hch
        simp [hch, ho]

theorem objChecked_uncheckObject_other {cat : Catalog} {tn ck tn2 ck2 : String}
    (h : ¬(tn = tn2 ∧ ck = ck2)) :
    objChecked (uncheckObject cat tn ck) tn2 ck2 = objChecked cat tn2 ck2 := by
  unfold uncheckObject
  by_cases htn : tn = tn2
  · subst htn
    have hck : ¬ck = ck2 := fun he => h ⟨rfl, he⟩
    rw [objChecked_amod_self]
    unfold objChecked
    cases ht : alookup cat tn with
    | none => rfl
    | some t =>
      simp only [Option.some_bind]
      cases ho : alookup t.childs ck with
      | none => simp only [ho]
      | some o =>
        simp only [ho]
        by_cases hch : o.checked = true
        · simp only [hch, if_true]
          rw [alookup_amod_other _ _ _ _ hck]
        · rw [Bool.not_eq_true] at hch
          simp [hch]
  · rw [objChecked_amod_other _ _ _ htn]

theorem objChecked_uncheckObject_false_preserve {cat : Catalog}
    {tn ck tn2 ck2 : String} (h : objChecked cat tn2 ck2 = some false) :
    objChecked (uncheckObject cat tn ck) tn2 ck2 = some false := by
  by_cases hsame : tn = tn2 ∧ ck = ck2
  · obtain ⟨h1, h2⟩ := hsame
    subst h1; subst h2
    exact objChecked_uncheckObject_self (by rw [h]; rfl)
  · rw [objChecked_uncheckObject_other hsame]
    exact h

theorem objChecked_uncheckObject_isSome (cat : Catalog) (tn ck tn2 ck2 : String) :
    (objChecked (uncheckObject cat tn ck) tn2 ck2).isSome =
      (objChecked cat tn2 ck2).isSome := by
  by_cases hsame : tn = tn2 ∧ ck = ck2
  · obtain ⟨h1, h2⟩ := hsame
    subst h1; subst h2
    cases hv : objChecked cat tn ck with
    | none =>
      unfold uncheckObject
      rw [objChecked_amod_self]
      unfold objChecked at hv
      cases ht : alookup cat tn with
      | none => simp
      | some t =>
        rw [ht] at hv
        simp only [Option.some_bind] at hv ⊢
        cases ho : alookup t.childs ck with
        | none => simp only [ho]; simp
        | some o => rw [ho] at hv; simp at hv
    | some v =>
      rw [objChecked_uncheckObject_self (by rw [hv]; rfl)]
      rfl
  · rw [objChecked_uncheckObject_other hsame]

theorem itemChecked_uncheckObject (cat : Catalog) (tn ck tn2 ck2 gk2 : String) :
    itemChecked (uncheckObject cat tn ck) tn2 ck2 gk2 =
      itemChecked cat tn2 ck2 gk2 := by
  unfold uncheckObject
  by_cases htn : tn = tn2
  · subst htn
    rw [itemChecked_amod_self]
    unfold itemChecked
    cases ht : alookup cat tn with
    | none => rfl
    | some t =>
      simp only [Option.some_bind]
      cases ho : alookup t.childs ck with
      | none => simp only [ho]
      | some o =>
        simp only [ho]
        by_cases hch : o.checked = true
        · simp only [hch, if_true]
          by_cases hck : ck = ck2
          · subst hck
            rw [alookup_amod_self, ho]
            rfl
          · rw [alookup_amod_other _ _ _ _ hck]
        · rw [Bool.not_eq_true] at hch
          simp [hch]
  · rw [itemChecked_amod_other _ _ _ _ htn]

theorem objChecked_uncheckItem (cat : Catalog) (tn ck gk tn2 ck2 : String) :
    objChecked (uncheckItem cat tn ck gk) tn2 ck2 = objChecked cat tn2 ck2 := by
  unfold uncheckItem
  by_cases htn : tn = tn2
  · subst htn
    rw [objChecked_amod_self]
    unfold objChecked
    cases ht : alookup cat tn with
    | none => rfl
    | some t =>
      simp only [Option.some_bind]
      by_cases hck : ck = ck2
      · subst hck
        rw [alookup_amod_self]
        cases ho : alookup t.childs ck with
        | none => rfl
        | some o =>
          simp only [Option.map_some', Option.map_some]
          cases hi : alookup o.childs gk with
          | none => simp only [hi]
          | some it =>
            by_cases hch : it.checked = true
            · simp [hi, hch]
            · rw [Bool.not_eq_true] at hch
              simp [hi, hch]
      · rw [alookup_amod_other _ _ _ _ hck]
  · rw [objChecked_amod_other _ _ _ htn]

theorem itemChecked_uncheckItem_self {cat : Catalog} {tn ck gk : String}
    (h : (itemChecked cat tn ck gk).isSome = true) :
    itemChecked (uncheckItem cat tn ck gk) tn ck gk = some false := by
  unfold uncheckItem
  rw [itemChecked_amod_self]
  unfold itemChecked at h
  cases ht : alookup cat tn with
  | none => rw [ht] at h; simp at h
  | some t =>
    rw [ht] at h
    simp only [Option.some_bind] at h ⊢
    rw [alookup_amod_self]
    cases ho : alookup t.childs ck with
    | none => rw [ho] at h; simp at h
    | some o =>
      rw [ho] at h
      simp only [Option.some_bind] at h
      simp only [Option.map_some', Option.some_bind]
      cases hi : alookup o.childs gk with
      | none => rw [hi] at h; simp at h
      | some it =>
        by_cases hch : it.checked = true
        · simp [hi, hch, alookup_amod_self]
        · rw [Bool.not_eq_true] at hch
          simp [hi, hch]

theorem itemChecked_uncheckItem_other {cat : Catalog} {tn ck gk tn2 ck2 gk2 : String}
    (h : ¬(tn = tn2 ∧ ck = ck2 ∧ gk = gk2)) :
    itemChecked (uncheckItem cat tn ck gk) tn2 ck2 gk2 =
      itemChecked cat tn2 ck2 gk2 := by
  unfold uncheckItem
  by_cases htn : tn = tn2
  · subst htn
    rw [itemChecked_amod_self]
    unfold itemChecked
    cases ht : alookup cat tn with
    | none => rfl
    | some t =>
      simp only [Option.some_bind]
      by_cases hck : ck = ck2
      · subst hck
        have hgk : ¬gk = gk2 := fun he => h ⟨rfl, rfl, he⟩
        rw [alookup_amod_self]
        cases ho : alookup t.childs ck with
        | none => rfl
        | some o =>
          simp only [Option.map_some', Option.some_bind]
          cases hi : alookup o.childs gk with
          | none => simp only [hi]
          | some it =>
            by_cases hch : it.checked = true
            · simp only [hi, hch, if_true]
              rw [alookup_amod_other _ _ _ _ hgk]
            · rw [Bool.not_eq_true] at hch
              simp [hi, hch]
      · rw [alookup_amod_other _ _ _ _ hck]
  · rw [itemChecked_amod_other _ _ _ _ htn]

theorem itemChecked_uncheckItem_false_preserve {cat : Catalog}
    {tn ck gk tn2 ck2 gk2 : String} (h : itemChecked cat tn2 ck2 gk2 = some false) :
    itemChecked (uncheckItem cat tn ck gk) tn2 ck2 gk2 = some false := by
  by_cases hsame : tn = tn2 ∧ ck = ck2 ∧ gk = gk2
  · obtain ⟨h1, h2, h3⟩ := hsame
    subst h1; subst h2; subst h3
    exact itemChecked_uncheckItem_self (by rw [h]; rfl)
  · rw [itemChecked_uncheckItem_other hsame]
    exact h

theorem itemChecked_uncheckItem_isSome (cat : Catalog) (tn ck gk tn2 ck2 gk2 : String) :
    (itemChecked (uncheckItem cat tn ck gk) tn2 ck2 gk2).isSome =
      (itemChecked cat tn2 ck2 gk2).isSome := by
  by_cases hsame : tn = tn2 ∧ ck = ck2 ∧ gk = gk2
  · obtain ⟨h1, h2, h3⟩ := hsame
    subst h1; subst h2; subst h3
    cases hv : itemChecked cat tn ck gk with
    | none =>
      unfold uncheckItem
      rw [itemChecked_amod_self]
      unfold itemChecked at hv
      cases ht : alookup cat tn with
      | none => simp
      | some t =>
        rw [ht] at hv
        simp only [Option.some_bind] at hv ⊢
        rw [alookup_amod_self]
        cases ho : alookup t.childs ck with
        | none => simp
        | some o =>
          rw [ho] at hv
          simp only [Option.some_bind] at hv
          simp only [Option.map_some', Option.some_bind]
          cases hi : alookup o.childs gk with
          | none => simp only [hi]; simp
          | some it => rw [hi] at hv; simp at hv
    | some v =>
      rw [itemChecked_uncheckItem_self (by rw [hv]; rfl)]
      rfl
  · rw [itemChecked_uncheckItem_other hsame]

theorem objChecked_itemFold (tn ck : String) (items : List (String × MetadataItem))
    (acc : Catalog) (tn2 ck2 : String) :
    objChecked (items.foldl (fun a q => uncheckItem a tn ck q.1) acc) tn2 ck2 =
      objChecked acc tn2 ck2 := by
  induction items generalizing acc with
  | nil => rfl
  | cons q rest ih =>
    rw [List.foldl_cons, ih, objChecked_uncheckItem]

theorem alookup_itemFold_other {tn ck tn2 : String}
    (items : List (String × MetadataItem)) (acc : Catalog) (h : ¬tn = tn2) :
    alookup (items.foldl (fun a q => uncheckItem a tn ck q.1) acc) tn2 =
      alookup acc tn2 := by
  induction items generalizing acc with
  | nil => rfl
  | cons q rest ih =>
    rw [List.foldl_cons, ih]
    unfold uncheckItem
    rw [alookup_amod_other _ _ _ _ h]

theorem itemChecked_itemFold_false_preserve {tn ck : String}
    {items : List (String × MetadataItem)} {acc : Catalog} {tn2 ck2 gk2 : String}
    (h : itemChecked acc tn2 ck2 gk2 = some false) :
    itemChecked (items.foldl (fun a q => uncheckItem a tn ck q.1) acc) tn2 ck2 gk2 =
      some false := by
  induction items generalizing acc with
  | nil => exact h
  | cons q rest ih =>
    rw [List.foldl_cons]
    exact ih (itemChecked_uncheckItem_false_preserve h)

theorem itemChecked_itemFold_isSome (tn ck : String)
    (items : List (String × MetadataItem)) (acc : Catalog) (tn2 ck2 gk2 : String) :
    (itemChecked (items.foldl (fun a q => uncheckItem a tn ck q.1) acc)
        tn2 ck2 gk2).isSome = (itemChecked acc tn2 ck2 gk2).isSome := by
  induction items generalizing acc with
  | nil => rfl
  | cons q rest ih =>
    rw [List.foldl_cons, ih, itemChecked_uncheckItem_isSome]

theorem itemFold_reach {tn ck gk : String} {items : List (String × MetadataItem)}
    {acc : Catalog} {it : MetadataItem} (hmem : (gk, it) ∈ items)
    (hpres : (itemChecked acc tn ck gk).isSome = true) :
    itemChecked (items.foldl (fun a q => uncheckItem a tn ck q.1) acc) tn ck gk =
      some false := by
  obtain ⟨l1, l2, rfl⟩ := List.append_of_mem hmem
  rw [List.foldl_append, List.foldl_cons]
  have hpres1 : (itemChecked (l1.foldl (fun a q => uncheckItem a tn ck q.1) acc)
      tn ck gk).isSome = true := by
    rw [itemChecked_itemFold_isSome]
    exact hpres
  exact itemChecked_itemFold_false_preserve (itemChecked_uncheckItem_self hpres1)

theorem objChecked_priorTypeChild_false_preserve {tn ck : String}
    {child : MetadataObject} {remove : Catalog} {tn2 ck2 : String}
    (h : objChecked remove tn2 ck2 = some false) :
    objChecked (priorTypeChild tn ck child remove) tn2 ck2 = some false := by
  unfold priorTypeChild
  split
  · rw [objChecked_itemFold]
    exact objChecked_uncheckObject_false_preserve h
  · exact objChecked_uncheckObject_false_preserve h

theorem objChecked_priorTypeChild_isSome (tn ck : String) (child : MetadataObject)
    (remove : Catalog) (tn2 ck2 : String) :
    (objChecked (priorTypeChild tn ck child remove) tn2 ck2).isSome =
      (objChecked remove tn2 ck2).isSome := by
  unfold priorTypeChild
  split
  · rw [objChecked_itemFold, objChecked_uncheckObject_isSome]
  · rw [objChecked_uncheckObject_isSome]

theorem itemChecked_priorTypeChild_false_preserve {tn ck : String}
    {child : MetadataObject} {remove : Catalog} {tn2 ck2 gk2 : String}
    (h : itemChecked remove tn2 ck2 gk2 = some false) :
    itemChecked (priorTypeChild tn ck child remove) tn2 ck2 gk2 = some false := by
  unfold priorTypeChild
  split
  · refine itemChecked_itemFold_false_preserve ?_
    rw [itemChecked_uncheckObject]
    exact h
  · rw [itemChecked_uncheckObject]
    exact h

theorem itemChecked_priorTypeChild_isSome (tn ck : String) (child : MetadataObject)
    (remove : Catalog) (tn2 ck2 gk2 : String) :
    (itemChecked (priorTypeChild tn ck child remove) tn2 ck2 gk2).isSome =
      (itemChecked remove tn2 ck2 gk2).isSome := by
  unfold priorTypeChild
  split
  · rw [itemChecked_itemFold_isSome, itemChecked_uncheckObject]
  · rw [itemChecked_uncheckObject]

theorem alookup_priorTypeChild_other {tn ck tn2 : String} {child : MetadataObject}
    {remove : Catalog} (h : ¬tn = tn2) :
    alookup (priorTypeChild tn ck child remove) tn2 = alookup remove tn2 := by
  unfold priorTypeChild
  split
  · rw [alookup_itemFold_other _ _ h]
    unfold uncheckObject
    rw [alookup_amod_other _ _ _ _ h]
  · unfold uncheckObject
    rw [alookup_amod_other _ _ _ _ h]

theorem priorTypeChild_reach_object {tn ck : String} {child : MetadataObject}
    {remove : Catalog} (hpres : (objChecked remove tn ck).isSome = true) :
    objChecked (priorTypeChild tn ck child remove) tn ck = some false := by
  unfold priorTypeChild
  split
  · rw [objChecked_itemFold]
    exact objChecked_uncheckObject_self hpres
  · exact objChecked_uncheckObject_self hpres

theorem priorTypeChild_reach_item {tn ck gk : String} {child : MetadataObject}
    {remove : Catalog} {it : MetadataItem} (hgk : (gk, it) ∈ child.childs)
    (hpres : (itemChecked remove tn ck gk).isSome = true) :
    itemChecked (priorTypeChild tn ck child remove) tn ck gk = some false := by
  unfold priorTypeChild
  rw [if_pos (List.ne_nil_of_mem hgk)]
  refine itemFold_reach hgk ?_
  rw [itemChecked_uncheckObject]
  exact hpres

theorem objChecked_priorChildFold_false_preserve {tn : String}
    {entries : List (String × MetadataObject)} {acc : Catalog} {tn2 ck2 : String}
    (h : objChecked acc tn2 ck2 = some false) :
    objChecked (priorChildFold tn entries acc) tn2 ck2 = some false := by
  induction entries generalizing acc with
  | nil => exact h
  | cons q rest ih =>
    unfold priorChildFold at ih ⊢
    rw [List.foldl_cons]
    exact ih (objChecked_priorTypeChild_false_preserve h)

theorem objChecked_priorChildFold_isSome (tn : String)
    (entries : List (String × MetadataObject)) (acc : Catalog) (tn2 ck2 : String) :
    (objChecked (priorChildFold tn entries acc) tn2 ck2).isSome =
      (objChecked acc tn2 ck2).isSome := by
  induction entries generalizing acc with
  | nil => rfl
  | cons q rest ih =>
    unfold priorChildFold at ih ⊢
    rw [List.foldl_cons, ih, objChecked_priorTypeChild_isSome]

theorem itemChecked_priorChildFold_false_preserve {tn : String}
    {entries : List (String × MetadataObject)} {acc : Catalog} {tn2 ck2 gk2 : String}
    (h : itemChecked acc tn2 ck2 gk2 = some false) :
    itemChecked (priorChildFold tn entries acc) tn2 ck2 gk2 = some false := by
  induction entries generalizing acc with
  | nil => exact h
  | cons q rest ih =>
    unfold priorChildFold at ih ⊢
    rw [List.foldl_cons]
    exact ih (itemChecked_priorTypeChild_false_preserve h)

theorem itemChecked_priorChildFold_isSome (tn : String)
    (entries : List (String × MetadataObject)) (acc : Catalog) (tn2 ck2 gk2 : String) :
    (itemChecked (priorChildFold tn entries acc) tn2 ck2 gk2).isSome =
      (itemChecked acc tn2 ck2 gk2).isSome := by
  induction entries generalizing acc with
  | nil => rfl
  | cons q rest ih =>
    unfold priorChildFold at ih ⊢
    rw [List.foldl_cons, ih, itemChecked_priorTypeChild_isSome]

theorem alookup_priorChildFold_other {tn tn2 : String}
    {entries : List (String × MetadataObject)} {acc : Catalog} (h : ¬tn = tn2) :
    alookup (priorChildFold tn entries acc) tn2 = alookup acc tn2 := by
  induction entries generalizing acc with
  | nil => rfl
  | cons q rest ih =>
    unfold priorChildFold at ih ⊢
    rw [List.foldl_cons, ih, alookup_priorTypeChild_other h]

theorem priorChildFold_reach_object {tn ck : String}
    {entries : List (String × MetadataObject)} {acc : Catalog} {o : MetadataObject}
    (hmem : (ck, o) ∈ entries) (hpres : (objChecked acc tn ck).isSome = true) :
    objChecked (priorChildFold tn entries acc) tn ck = some false := by
  obtain ⟨l1, l2, rfl⟩ := List.append_of_mem hmem
  unfold priorChildFold
  rw [List.foldl_append, List.foldl_cons]
  have hpres1 : (objChecked (priorChildFold tn l1 acc) tn ck).isSome = true := by
    rw [objChecked_priorChildFold_isSome]
    exact hpres
  refine objChecked_priorChildFold_false_preserve ?_
  exact priorTypeChild_reach_object hpres1

theorem priorChildFold_reach_item {tn ck gk : String}
    {entries : List (String × MetadataObject)} {acc : Catalog} {o : MetadataObject}
    {it : MetadataItem} (hmem : (ck, o) ∈ entries) (hgk : (gk, it) ∈ o.childs)
    (hpres : (itemChecked acc tn ck gk).isSome = true) :
    itemChecked (priorChildFold tn entries acc) tn ck gk = some false := by
  obtain ⟨l1, l2, rfl⟩ := List.append_of_mem hmem
  unfold priorChildFold
  rw [List.foldl_append, List.foldl_cons]
  have hpres1 : (itemChecked (priorChildFold tn l1 acc) tn ck gk).isSome = true := by
    rw [itemChecked_priorChildFold_isSome]
    exact hpres
  refine itemChecked_priorChildFold_false_preserve ?_
  exact priorTypeChild_reach_item hgk hpres1

theorem objChecked_priorPassStep_false_preserve {prior acc : Catalog} {tn : String}
    {tn2 ck2 : String} (h : objChecked acc tn2 ck2 = some false) :
    objChecked (priorPassStep prior acc tn) tn2 ck2 = some false := by
  unfold priorPassStep
  cases alookup prior tn with
  | none => exact h
  | some t => exact objChecked_priorChildFold_false_preserve h

theorem objChecked_priorPassStep_isSome (prior acc : Catalog) (tn tn2 ck2 : String) :
    (objChecked (priorPassStep prior acc tn) tn2 ck2).isSome =
      (objChecked acc tn2 ck2).isSome := by
  unfold priorPassStep
  cases alookup prior tn with
  | none => rfl
  | some t => rw [objChecked_priorChildFold_isSome]

theorem itemChecked_priorPassStep_false_preserve {prior acc : Catalog} {tn : String}
    {tn2 ck2 gk2 : String} (h : itemChecked acc tn2 ck2 gk2 = some false) :
    itemChecked (priorPassStep prior acc tn) tn2 ck2 gk2 = some false := by
  unfold priorPassStep
  cases alookup prior tn with
  | none => exact h
  | some t => exact itemChecked_priorChildFold_false_preserve h

theorem itemChecked_priorPassStep_isSome (prior acc : Catalog) (tn tn2 ck2 gk2 : String) :
    (itemChecked (priorPassStep prior acc tn) tn2 ck2 gk2).isSome =
      (itemChecked acc tn2 ck2 gk2).isSome := by
  unfold priorPassStep
  cases alookup prior tn with
  | none => rfl
  | some t => rw [itemChecked_priorChildFold_isSome]

theorem alookup_priorPassStep_other {prior acc : Catalog} {tn tn2 : String}
    (h : ¬tn = tn2) :
    alookup (priorPassStep prior acc tn) tn2 = alookup acc tn2 := by
  unfold priorPassStep
  cases alookup prior tn with
  | none => rfl
  | some t => exact alookup_priorChildFold_other h

theorem objChecked_priorPass_false_preserve {types : List String}
    {prior remove : Catalog} {tn2 ck2 : String}
    (h : objChecked remove tn2 ck2 = some false) :
    objChecked (priorMetadataTypes types prior remove) tn2 ck2 = some false := by
  induction types generalizing remove with
  | nil => exact h
  | cons tn rest ih =>
    unfold priorMetadataTypes at ih ⊢
    rw [List.foldl_cons]
    exact ih (objChecked_priorPassStep_false_preserve h)

theorem objChecked_priorPass_isSome (types : List String) (prior remove : Catalog)
    (tn2 ck2 : String) :
    (objChecked (priorMetadataTypes types prior remove) tn2 ck2).isSome =
      (objChecked remove tn2 ck2).isSome := by
  induction types generalizing remove with
  | nil => rfl
  | cons tn rest ih =>
    unfold priorMetadataTypes at ih ⊢
    rw [List.foldl_cons, ih, objChecked_priorPassStep_isSome]

theorem itemChecked_priorPass_false_preserve {types : List String}
    {prior remove : Catalog} {tn2 ck2 gk2 : String}
    (h : itemChecked remove tn2 ck2 gk2 = some false) :
    itemChecked (priorMetadataTypes types prior remove) tn2 ck2 gk2 = some false := by
  induction types generalizing remove with
  | nil => exact h
  | cons tn rest ih =>
    unfold priorMetadataTypes at ih ⊢
    rw [List.foldl_cons]
    exact ih (itemChecked_priorPassStep_false_preserve h)

theorem itemChecked_priorPass_isSome (types : List String) (prior remove : Catalog)
    (tn2 ck2 gk2 : String) :
    (itemChecked (priorMetadataTypes types prior remove) tn2 ck2 gk2).isSome =
      (itemChecked remove tn2 ck2 gk2).isSome := by
  induction types generalizing remove with
  | nil => rfl
  | cons tn rest ih =>
    unfold priorMetadataTypes at ih ⊢
    rw [List.foldl_cons, ih, itemChecked_priorPassStep_isSome]

theorem alookup_priorPass_untouched {types : List String} {prior remove : Catalog}
    {tn : String} (h : ∀ tn2 ∈ types, ¬tn2 = tn) :
    alookup (priorMetadataTypes types prior remove) tn = alookup remove tn := by
  induction types generalizing remove with
  | nil => rfl
  | cons tn2 rest ih =>
    unfold priorMetadataTypes at ih ⊢
    rw [List.foldl_cons]
    rw [ih (fun x hx => h x (List.mem_cons_of_mem _ hx))]
    exact alookup_priorPassStep_other (h tn2 (List.mem_cons_self _ _))

theorem priorPass_reach_object {types : List String} {prior remove : Catalog}
    {tn ck : String} {t : MetadataType} {o : MetadataObject}
    (htn : tn ∈ types) (hprior : alookup prior tn = some t)
    (ho : alookup t.childs ck = some o)
    (hpres : (objChecked remove tn ck).isSome = true) :
    objChecked (priorMetadataTypes types prior remove) tn ck = some false := by
  obtain ⟨l1, l2, rfl⟩ := List.append_of_mem htn
  unfold priorMetadataTypes
  rw [List.foldl_append, List.foldl_cons]
  have hpres1 : (objChecked (priorMetadataTypes l1 prior remove) tn ck).isSome =
      true := by
    rw [objChecked_priorPass_isSome]
    exact hpres
  have hstep : objChecked (priorPassStep prior (priorMetadataTypes l1 prior remove) tn)
      tn ck = some false := by
    unfold priorPassStep
    rw [hprior]
    exact priorChildFold_reach_object (alookup_mem ho) hpres1
  exact objChecked_priorPass_false_preserve hstep

theorem priorPass_reach_item {types : List String} {prior remove : Catalog}
    {tn ck gk : String} {t : MetadataType} {o : MetadataObject} {it : MetadataItem}
    (htn : tn ∈ types) (hprior : alookup prior tn = some t)
    (ho : alookup t.childs ck = some o) (hgk : alookup o.childs gk = some it)
    (hpres : (itemChecked remove tn ck gk).isSome = true) :
    itemChecked (priorMetadataTypes types prior remove) tn ck gk = some false := by
  obtain ⟨l1, l2, rfl⟩ := List.append_of_mem htn
  unfold priorMetadataTypes
  rw [List.foldl_append, List.foldl_cons]
  have hpres1 : (itemChecked (priorMetadataTypes l1 prior remove) tn ck gk).isSome =
      true := by
    rw [itemChecked_priorPass_isSome]
    exact hpres
  have hstep : itemChecked (priorPassStep prior (priorMetadataTypes l1 prior remove) tn)
      tn ck gk = some false := by
    unfold priorPassStep
    rw [hprior]
    exact priorChildFold_reach_item (alookup_mem ho) (alookup_mem hgk) hpres1
  exact itemChecked_priorPass_false_preserve hstep

theorem priorLists_disjoint : ∀ tn ∈ typesForPriorDeploy, tn ∉ typesForPriorDelete := by
  decide

theorem objChecked_components {cat : Catalog} {tn ck : String} {v : Bool}
    (h : objChecked cat tn ck = some v) :
    ∃ t o, alookup cat tn = some t ∧ alookup t.childs ck = some o ∧
      o.checked = v := by
  unfold objChecked at h
  cases ht : alookup cat tn with
  | none => rw [ht] at h; simp at h
  | some t =>
    rw [ht] at h
    simp only [Option.some_bind] at h
    cases ho : alookup t.childs ck with
    | none => rw [ho] at h; simp at h
    | some o =>
      rw [ho] at h
      simp only [Option.map_some'] at h
      exact ⟨t, o, rfl, ho, Option.some.inj h⟩

theorem itemChecked_components {cat : Catalog} {tn ck gk : String} {v : Bool}
    (h : itemChecked cat tn ck gk = some v) :
    ∃ t o it, alookup cat tn = some t ∧ alookup t.childs ck = some o ∧
      alookup o.childs gk = some it ∧ it.checked = v := by
  unfold itemChecked at h
  cases ht : alookup cat tn with
  | none => rw [ht] at h; simp at h
  | some t =>
    rw [ht] at h
    simp only [Option.some_bind] at h
    cases ho : alookup t.childs ck with
    | none => rw [ho] at h; simp at h
    | some o =>
      rw [ho] at h
      simp only [Option.some_bind] at h
      cases hi : alookup o.childs gk with
      | none => rw [hi] at h; simp at h
      | some it =>
        rw [hi] at h
        simp only [Option.map_some'] at h
        exact ⟨t, o, it, rfl, ho, hi, Option.some.inj h⟩

theorem scanLine_not_added {xmlName fileName filePath typePath : String}
    {suffix : Option String} {st : ScanState} {line : String}
    (h : (scanLine xmlName fileName filePath typePath suffix st line).added = false) :
    (scanLine xmlName fileName filePath typePath suffix st line).metadata = st.metadata ∧
      st.added = false := by
  revert h
  unfold scanLine
  dsimp only
  repeat' split
  all_goals intro h
  all_goals
    first
    | exact ⟨rfl, h⟩
    | simp at h

theorem scanFold_not_added (xmlName fileName filePath typePath : String)
    (suffix : Option String) (lines : List String) (st : ScanState)
    (h : (lines.foldl (scanLine xmlName fileName filePath typePath suffix) st).added =
      false) :
    (lines.foldl (scanLine xmlName fileName filePath typePath suffix) st).metadata =
      st.metadata ∧ st.added = false := by
  induction lines generalizing st with
  | nil => exact ⟨rfl, h⟩
  | cons l rest ih =>
    simp only [List.foldl_cons] at h ⊢
    have h2 := ih (scanLine xmlName fileName filePath typePath suffix st l) h
    have h3 := scanLine_not_added h2.2
    exact ⟨h2.1.trans h3.1, h3.2⟩

theorem createMetadataDetailsFromList_length (sfx : String → Option String)
    (ts : List TypeDescription) :
    (createMetadataDetailsFromList sfx ts).length =
      ts.length + (ts.map (fun m => m.childXmlNames.length)).sum := by
  induction ts with
  | nil => simp [createMetadataDetailsFromList]
  | cons m rest ih =>
    simp [createMetadataDetailsFromList, ih]
    omega

theorem detailFromChild_mem (sfx : String → Option String) (ts : List TypeDescription)
    (m : TypeDescription) (c : String) (hm : m ∈ ts) (hc : c ∈ m.childXmlNames) :
    detailFromChild sfx m c ∈ createMetadataDetailsFromList sfx ts := by
  induction ts with
  | nil => simp at hm
  | cons m0 rest ih =>
    rcases List.mem_cons.mp hm with h | h
    · subst h
      simp only [createMetadataDetailsFromList, List.mem_append, List.mem_cons]
      exact Or.inl (Or.inr (List.mem_map_of_mem _ hc))
    · simp only [createMetadataDetailsFromList, List.mem_append]
      exact Or.inr (ih h)

theorem alookup_cons_none {α : Type} {k0 k : String} {v0 : α}
    {rest : List (String × α)} (h : alookup ((k0, v0) :: rest) k = none) :
    ¬k0 = k ∧ alookup rest k = none := by
  by_cases hk : k0 = k
  · simp [alookup, hk] at h
  · exact ⟨hk, by simpa [alookup, hk] using h⟩

theorem aset_append_missing {α : Type} (l1 : List (String × α)) (k : String)
    (v : α) (h : alookup l1 k = none) : aset l1 k v = l1 ++ [(k, v)] := by
  induction l1 with
  | nil => rfl
  | cons p rest ih =>
    obtain ⟨k0, v0⟩ := p
    obtain ⟨hk, hrest⟩ := alookup_cons_none h
    simp [aset, hk, ih hrest]

theorem amod_append_missing {α : Type} (l1 : List (String × α)) (k : String)
    (v : α) (f : α → α) (h : alookup l1 k = none) :
    amod (l1 ++ [(k, v)]) k f = l1 ++ [(k, f v)] := by
  induction l1 with
  | nil => simp [amod]
  | cons p rest ih =>
    obtain ⟨k0, v0⟩ := p
    obtain ⟨hk, hrest⟩ := alookup_cons_none h
    simp [amod, hk, ih hrest]

theorem ains_append_missing {α : Type} (l1 : List (String × α)) (k : String)
    (v : α) (h : alookup l1 k = none) : ains l1 k v = l1 ++ [(k, v)] := by
  unfold ains
  rw [h]
  rfl

theorem itemsFold_eq (jl : List (String × JItem)) (o : MetadataObject)
    (h : ∀ q ∈ jl, alookup o.childs q.1 = none)
    (hnd : (jl.map Prod.fst).Nodup) :
    jl.foldl (fun o2 q => { o2 with childs := ains o2.childs q.1 (mkItem q.2.name q.2.checked q.2.path) }) o =
    { o with childs := o.childs ++ jl.map (fun q => (q.1, mkItem q.2.name q.2.checked q.2.path)) } := by
  induction jl generalizing o with
  | nil => simp
  | cons q rest ih =>
    rw [List.foldl_cons]
    rw [ains_append_missing _ _ _ (h q (List.mem_cons_self q rest))]
    rw [ih]
    · simp
    · intro r hr
      dsimp only
      rw [alookup_append, h r (List.mem_cons_of_mem q hr)]
      have hne : ¬q.1 = r.1 := by
        intro he
        rw [List.map_cons] at hnd
        exact (List.nodup_cons.mp hnd).1 (he ▸ List.mem_map_of_mem Prod.fst hr)
      simp [alookup, hne, Option.or]
    · rw [List.map_cons] at hnd
      exact (List.nodup_cons.mp hnd).2

theorem map_serializeItem_inv (il : List (String × MetadataItem)) :
    (il.map (fun q => (q.1, serializeItem q.2))).map
      (fun q => (q.1, mkItem q.2.name q.2.checked q.2.path)) = il := by
  induction il with
  | nil => rfl
  | cons p rest ih =>
    simp only [List.map_cons]
    rw [ih]
    rfl

theorem jObjStep_roundTrip (mt : MetadataType) (k : String) (o : MetadataObject)
    (hk : alookup mt.childs k = none)
    (hnd : (o.childs.map Prod.fst).Nodup) :
    jObjStep mt (k, serializeObject o) =
      { mt with childs := mt.childs ++ [(k, o)] } := by
  obtain ⟨n, c, pa, ch⟩ := o
  unfold jObjStep
  dsimp only [serializeObject]
  rw [ains_append_missing _ _ _ hk]
  by_cases hch : ch = []
  · subst hch
    simp [mkObject]
  · rw [if_pos (show List.map (fun q => (q.1, serializeItem q.2)) ch ≠ [] from
      fun he => hch (List.map_eq_nil_iff.mp he))]
    rw [amod_append_missing _ _ _ _ hk]
    rw [itemsFold_eq _ (mkObject n c pa) (fun q _ => rfl)
      (by rw [List.map_map]; exact hnd)]
    rw [map_serializeItem_inv]
    simp [mkObject]

theorem objsFold_roundTrip (ol : List (String × MetadataObject))
    (mt : MetadataType)
    (h : ∀ p ∈ ol, alookup mt.childs p.1 = none)
    (hnd : (ol.map Prod.fst).Nodup)
    (hitems : ∀ p ∈ ol, (p.2.childs.map Prod.fst).Nodup) :
    (ol.map (fun p => (p.1, serializeObject p.2))).foldl jObjStep mt =
      { mt with childs := mt.childs ++ ol } := by
  induction ol generalizing mt with
  | nil => simp
  | cons p rest ih =>
    simp only [List.map_cons, List.foldl_cons]
    rw [jObjStep_roundTrip mt p.1 p.2 (h p (List.mem_cons_self p rest))
      (hitems p (List.mem_cons_self p rest))]
    rw [ih]
    · simp
    · intro r hr
      dsimp only
      rw [alookup_append, h r (List.mem_cons_of_mem p hr)]
      have hne : ¬p.1 = r.1 := by
        intro he
        rw [List.map_cons] at hnd
        exact (List.nodup_cons.mp hnd).1 (he ▸ List.mem_map_of_mem Prod.fst hr)
      simp [alookup, hne]
    · rw [List.map_cons] at hnd
      exact (List.nodup_cons.mp hnd).2
    · intro r hr
      exact hitems r (List.mem_cons_of_mem p hr)

theorem catFold_roundTrip (l : Catalog) (acc : Catalog)
    (h : ∀ p ∈ l, alookup acc p.1 = none)
    (hnd : (l.map Prod.fst).Nodup)
    (hobjs : ∀ p ∈ l, (p.2.childs.map Prod.fst).Nodup)
    (hitems : ∀ p ∈ l, ∀ q ∈ p.2.childs, (q.2.childs.map Prod.fst).Nodup) :
    (l.map (fun p => (p.1, serializeType p.2))).foldl (jTypeStep false) acc =
      acc ++ l := by
  induction l generalizing acc with
  | nil => simp
  | cons p rest ih =>
    simp only [List.map_cons, List.foldl_cons]
    have hstep : jTypeStep false acc (p.1, serializeType p.2) =
        acc ++ [(p.1, p.2)] := by
      unfold jTypeStep
      dsimp only [serializeType]
      rw [objsFold_roundTrip _ (mkType p.2.name p.2.checked p.2.path p.2.suffix)
        (fun q _ => rfl)
        (hobjs p (List.mem_cons_self p rest))
        (hitems p (List.mem_cons_self p rest))]
      simp only [mkType, List.nil_append]
      rw [if_pos (show p.2.childs ≠ [] ∨ (¬p.2.childs ≠ [] ∧ True) from by
        by_cases hc : p.2.childs = []
        · exact Or.inr ⟨fun hne => hne hc, trivial⟩
        · exact Or.inl hc)]
      exact aset_append_missing _ _ _ (h p (List.mem_cons_self p rest))
    rw [hstep, ih]
    · simp
    · intro r hr
      rw [alookup_append, h r (List.mem_cons_of_mem p hr)]
      have hne : ¬p.1 = r.1 := by
        intro he
        rw [List.map_cons] at hnd
        exact (List.nodup_cons.mp hnd).1 (he ▸ List.mem_map_of_mem Prod.fst hr)
      simp [alookup, hne]
    · rw [List.map_cons] at hnd
      exact (List.nodup_cons.mp hnd).2
    · intro r hr
      exact hobjs r (List.mem_cons_of_mem p hr)
    · intro r hr
      exact hitems r (List.mem_cons_of_mem p hr)

theorem getMetadataObjectsFromGitDiff_aura {d : MetadataDetail}
    {bs : List String} {fn fp : String} {g : Bool} {b : String}
    (h1 : d.xmlName = MT.AURA_DEFINITION_BUNDLE)
    (hk : bs.get? 1 = some b) (hbne : ¬b = "") :
    getMetadataObjectsFromGitDiff d bs fn fp g =
      [(b, mkObject b true (some (getBasename fp)))] := by
  unfold getMetadataObjectsFromGitDiff
  dsimp only
  rw [h1]
  rw [if_neg (show ¬(bs.length > 1 ∧
      specialTypes.contains MT.AURA_DEFINITION_BUNDLE = false) from
    fun hc => absurd hc.2 (by decide))]
  rw [if_neg (show ¬(MT.AURA_DEFINITION_BUNDLE = MT.CUSTOM_METADATA ∨
      MT.AURA_DEFINITION_BUNDLE = MT.APPROVAL_PROCESSES ∨
      MT.AURA_DEFINITION_BUNDLE = MT.DUPLICATE_RULE) from by decide)]
  rw [if_neg (show ¬(MT.AURA_DEFINITION_BUNDLE = MT.QUICK_ACTION) from by decide)]
  rw [if_neg (show ¬(MT.AURA_DEFINITION_BUNDLE = MT.LAYOUT ∨
      MT.AURA_DEFINITION_BUNDLE = MT.STANDARD_VALUE_SET_TRANSLATION) from
    by decide)]
  rw [if_neg (show ¬(MT.AURA_DEFINITION_BUNDLE = MT.CUSTOM_OBJECT_TRANSLATIONS)
    from by decide)]
  rw [if_neg (show ¬(MT.AURA_DEFINITION_BUNDLE = MT.STATIC_RESOURCE) from
    by decide)]
  rw [if_neg (show ¬(MT.AURA_DEFINITION_BUNDLE = MT.FLOW) from by decide)]
  rw [if_pos (show (MT.AURA_DEFINITION_BUNDLE = MT.AURA_DEFINITION_BUNDLE ∨
      MT.AURA_DEFINITION_BUNDLE = MT.LIGHTNING_COMPONENT_BUNDLE) from
    Or.inl rfl)]
  rw [hk]
  dsimp only
  rw [if_pos (show (¬b = "" ∧
      (alookup ([] : List (String × MetadataObject)) b).isSome = false) from
    ⟨hbne, rfl⟩)]
  rfl

theorem getMetadataObjectsFromGitDiff_lwc {d : MetadataDetail}
    {bs : List String} {fn fp : String} {g : Bool} {b : String}
    (h1 : d.xmlName = MT.LIGHTNING_COMPONENT_BUNDLE)
    (hk : bs.get? 1 = some b) (hbne : ¬b = "") :
    getMetadataObjectsFromGitDiff d bs fn fp g =
      [(b, mkObject b true (some (getBasename fp)))] := by
  unfold getMetadataObjectsFromGitDiff
  dsimp only
  rw [h1]
  rw [if_neg (show ¬(bs.length > 1 ∧
      specialTypes.contains MT.LIGHTNING_COMPONENT_BUNDLE = false) from
    fun hc => absurd hc.2 (by decide))]
  rw [if_neg (show ¬(MT.LIGHTNING_COMPONENT_BUNDLE = MT.CUSTOM_METADATA ∨
      MT.LIGHTNING_COMPONENT_BUNDLE = MT.APPROVAL_PROCESSES ∨
      MT.LIGHTNING_COMPONENT_BUNDLE = MT.DUPLICATE_RULE) from by decide)]
  rw [if_neg (show ¬(MT.LIGHTNING_COMPONENT_BUNDLE = MT.QUICK_ACTION) from
    by decide)]
  rw [if_neg (show ¬(MT.LIGHTNING_COMPONENT_BUNDLE = MT.LAYOUT ∨
      MT.LIGHTNING_COMPONENT_BUNDLE = MT.STANDARD_VALUE_SET_TRANSLATION) from
    by decide)]
  rw [if_neg (show ¬(MT.LIGHTNING_COMPONENT_BUNDLE = MT.CUSTOM_OBJECT_TRANSLATIONS)
    from by decide)]
  rw [if_neg (show ¬(MT.LIGHTNING_COMPONENT_BUNDLE = MT.STATIC_RESOURCE) from
    by decide)]
  rw [if_neg (show ¬(MT.LIGHTNING_COMPONENT_BUNDLE = MT.FLOW) from by decide)]
  rw [if_pos (show (MT.LIGHTNING_COMPONENT_BUNDLE = MT.AURA_DEFINITION_BUNDLE ∨
      MT.LIGHTNING_COMPONENT_BUNDLE = MT.LIGHTNING_COMPONENT_BUNDLE) from
    Or.inr rfl)]
  rw [hk]
  dsimp only
  rw [if_pos (show (¬b = "" ∧
      (alookup ([] : List (String × MetadataObject)) b).isSome = false) from
    ⟨hbne, rfl⟩)]
  rfl

theorem getMetadataObjectsFromGitDiff_resource_root {d : MetadataDetail}
    {bs : List String} {fn fp : String} {g : Bool}
    (h1 : d.xmlName = MT.STATIC_RESOURCE) (hlen : bs.length = 1) :
    ∃ P, getMetadataObjectsFromGitDiff d bs fn fp g =
      [(fn, mkObject fn true (some P))] := by
  refine ⟨jsSubstring fp 0 (jsIndexOfI fp ("/" ++ d.directoryName)) ++ "/" ++
    d.directoryName ++ "/" ++ (bs.get? 1).getD "" ++ "NaN" ++ d.suffix.getD "" ++
    "-meta.xml", ?_⟩
  unfold getMetadataObjectsFromGitDiff
  dsimp only
  rw [h1]
  rw [if_neg (show ¬(bs.length > 1 ∧
      specialTypes.contains MT.STATIC_RESOURCE = false) from
    fun hc => absurd hc.2 (by decide))]
  rw [if_neg (show ¬(MT.STATIC_RESOURCE = MT.CUSTOM_METADATA ∨
      MT.STATIC_RESOURCE = MT.APPROVAL_PROCESSES ∨
      MT.STATIC_RESOURCE = MT.DUPLICATE_RULE) from by decide)]
  rw [if_neg (show ¬(MT.STATIC_RESOURCE = MT.QUICK_ACTION) from by decide)]
  rw [if_neg (show ¬(MT.STATIC_RESOURCE = MT.LAYOUT ∨
      MT.STATIC_RESOURCE = MT.STANDARD_VALUE_SET_TRANSLATION) from by decide)]
  rw [if_neg (show ¬(MT.STATIC_RESOURCE = MT.CUSTOM_OBJECT_TRANSLATIONS) from
    by decide)]
  rw [if_pos (show MT.STATIC_RESOURCE = MT.STATIC_RESOURCE from rfl)]
  rw [if_pos hlen]
  rfl

theorem getMetadataObjectsFromGitDiff_resource_sub {d : MetadataDetail}
    {bs : List String} {fn fp : String} {g : Bool} {b : String}
    (h1 : d.xmlName = MT.STATIC_RESOURCE) (hk : bs.get? 1 = some b) :
    ∃ P, getMetadataObjectsFromGitDiff d bs fn fp g =
      [(b, mkObject b true (some P))] := by
  have hlen1 : ¬bs.length = 1 := by
    obtain ⟨hlt, -⟩ := List.get?_eq_some.mp hk
    omega
  refine ⟨jsSubstring fp 0 (jsIndexOfI fp ("/" ++ d.directoryName)) ++ "/" ++
    d.directoryName ++ "/" ++ (bs.get? 1).getD "" ++ "NaN" ++ d.suffix.getD "" ++
    "-meta.xml", ?_⟩
  unfold getMetadataObjectsFromGitDiff
  dsimp only
  rw [h1]
  rw [if_neg (show ¬(bs.length > 1 ∧
      specialTypes.contains MT.STATIC_RESOURCE = false) from
    fun hc => absurd hc.2 (by decide))]
  rw [if_neg (show ¬(MT.STATIC_RESOURCE = MT.CUSTOM_METADATA ∨
      MT.STATIC_RESOURCE = MT.APPROVAL_PROCESSES ∨
      MT.STATIC_RESOURCE = MT.DUPLICATE_RULE) from by decide)]
  rw [if_neg (show ¬(MT.STATIC_RESOURCE = MT.QUICK_ACTION) from by decide)]
  rw [if_neg (show ¬(MT.STATIC_RESOURCE = MT.LAYOUT ∨
      MT.STATIC_RESOURCE = MT.STANDARD_VALUE_SET_TRANSLATION) from by decide)]
  rw [if_neg (show ¬(MT.STATIC_RESOURCE = MT.CUSTOM_OBJECT_TRANSLATIONS) from
    by decide)]
  rw [if_pos (show MT.STATIC_RESOURCE = MT.STATIC_RESOURCE from rfl)]
  rw [if_neg hlen1]
  rw [hk]
  rfl

theorem mergeDeploy_singleton_facts (deploy : Catalog) (tn : String)
    (fresh : MetadataType) (hf : fresh.childs = []) (key : String)
    (obj : MetadataObject) (hobj : obj.childs = []) (hchk : obj.checked = true) :
    (objChecked (mergeChildsForDeploy deploy tn fresh [(key, obj)]) tn key).isSome
      = true ∧
    (objChecked deploy tn key = none →
      objChecked (mergeChildsForDeploy deploy tn fresh [(key, obj)]) tn key =
        some true) := by
  constructor
  · unfold mergeChildsForDeploy
    exact deployFold_contributed_present (List.mem_singleton.mpr rfl)
      (alookup_ains_self_isSome deploy tn fresh)
  · intro hnone
    unfold mergeChildsForDeploy
    rw [List.foldl_cons, List.foldl_nil]
    unfold deployBodyStep
    dsimp only
    rw [if_neg (show ¬obj.childs ≠ [] from fun hne => hne hobj)]
    rw [objChecked_deployObjStep_new (alookup_ains_self_isSome deploy tn fresh)
      (objChecked_ains_emptyType_none hf hnone), hchk]

/-! ## Claim theorems -/

/-- C3 (amended): for every diff on a file of a composite-collection
category, when the changed-lines list is NON-EMPTY and scanning it commits
no complete inner-collection element, analizeDiffChanges leaves the passed
tree unchanged and returns the fallback tree containing just the bare
file-level Object (named by the base filename, with no Items) under the
file's original category; an EMPTY changed-lines list returns no tree at
all. -/
theorem analizeDiffChanges_structural_fallback (changes : List String)
    (metadata : Catalog) (d : MetadataDetail) (fileName filePath : String)
    (hne : changes ≠ [])
    (hscan : (changes.foldl (scanLine d.xmlName fileName filePath
        (typePathOf d filePath) d.suffix) (initScanState metadata)).added = false) :
    analizeDiffChanges changes metadata d fileName filePath =
      (metadata, some (fallbackTree d fileName filePath (typePathOf d filePath))) := by
  have hlen : changes.length > 0 := List.length_pos.mpr hne
  have h := scanFold_not_added d.xmlName fileName filePath (typePathOf d filePath)
    d.suffix changes (initScanState metadata) hscan
  unfold analizeDiffChanges
  dsimp only
  rw [if_pos hlen, if_neg (by rw [hscan]; exact Bool.false_ne_true)]
  rw [h.1]
  rfl

/-- Witness for C3 (amended): a one-line diff touching only the collection
wrapper (no complete element) falls back to the bare Object under
Workflow. -/
theorem analizeDiffChanges_structural_fallback_witness :
    analizeDiffChanges ["<fullName>RenamedWrapper</fullName>"] []
        ⟨MT.WORKFLOW, "workflows", some "workflow", none, none⟩ "Account"
        "/r/p/workflows/Account.workflow-meta.xml" =
      ([], some (fallbackTree ⟨MT.WORKFLOW, "workflows", some "workflow", none, none⟩
        "Account" "/r/p/workflows/Account.workflow-meta.xml"
        (typePathOf ⟨MT.WORKFLOW, "workflows", some "workflow", none, none⟩
          "/r/p/workflows/Account.workflow-meta.xml"))) :=
  analizeDiffChanges_structural_fallback _ _ _ _ _ (by decide) (by decide)

/-- C3 counterexample: an empty changed-lines list also finds no complete
inner-collection element, yet analizeDiffChanges returns no tree at all
(`undefined`) instead of the claimed bare file-level Object tree. -/
theorem analizeDiffChanges_empty_no_fallback :
    analizeDiffChanges [] [] ⟨MT.WORKFLOW, "workflows", some "workflow", none, none⟩
      "Account" "/r/p/workflows/Account.workflow-meta.xml" = ([], none) := by decide

/-- C7: for every input list of N top-level metadata type descriptions in
which entry i has k_i child category names, createMetadataDetails returns
exactly N + sum k_i MetadataDetail entries, and each child entry inherits
its parent's directoryName, inFolder and metaFile values and the parent's
suffix unless the child category has its own suffix override in the
MetadataSuffixByType table. -/
theorem createMetadataDetails_count_and_inheritance
    (suffixByType : String → Option String)
    (parseResponse : String → Except Unit (Option (List TypeDescription)))
    (ts : List TypeDescription) (ds : List MetadataDetail)
    (h : createMetadataDetails suffixByType parseResponse (.arr ts) = .ok ds) :
    ds.length = ts.length + (ts.map (fun m => m.childXmlNames.length)).sum ∧
    ∀ m ∈ ts, ∀ c ∈ m.childXmlNames,
      ({ xmlName := c, directoryName := m.directoryName,
         suffix := match suffixByType c with
           | some s => some s
           | none => m.suffix,
         inFolder := m.inFolder, metaFile := m.metaFile } : MetadataDetail) ∈ ds := by
  have hds : ds = createMetadataDetailsFromList suffixByType ts := by
    simpa [createMetadataDetails] using h.symm
  subst hds
  refine ⟨createMetadataDetailsFromList_length suffixByType ts, ?_⟩
  intro m hm c hc
  exact detailFromChild_mem suffixByType ts m c hm hc

/-- Witness for C7 at a concrete one-entry description list with one child
category. -/
theorem createMetadataDetails_count_and_inheritance_witness :
    (createMetadataDetailsFromList (fun _ => none)
        [⟨"Workflow", "workflows", some "workflow", some false, some false,
          ["WorkflowAlert"]⟩]).length = 2 ∧
    ({ xmlName := "WorkflowAlert", directoryName := "workflows",
       suffix := some "workflow", inFolder := some false,
       metaFile := some false } : MetadataDetail) ∈
      createMetadataDetailsFromList (fun _ => none)
        [⟨"Workflow", "workflows", some "workflow", some false, some false,
          ["WorkflowAlert"]⟩] := by
  have h := createMetadataDetails_count_and_inheritance (fun _ => none)
    (fun _ => Except.error ())
    [⟨"Workflow", "workflows", some "workflow", some false, some false,
      ["WorkflowAlert"]⟩]
    (createMetadataDetailsFromList (fun _ => none)
      [⟨"Workflow", "workflows", some "workflow", some false, some false,
        ["WorkflowAlert"]⟩]) rfl
  refine ⟨by simpa using h.1, ?_⟩
  have h2 := h.2 ⟨"Workflow", "workflows", some "workflow", some false, some false,
    ["WorkflowAlert"]⟩ (by simp) "WorkflowAlert" (by simp)
  simpa using h2

/-- C4 (amended): the cross-file merge of createMetadataTypesFromGitDiffs
(the inline loops for non-composite categories) is a non-destructive union:
existing nodes are never removed and their checked flags are never demoted,
children maps are unioned recursively, and contributed nodes absent from
the tree are appended.  However the promotion of an existing node's checked
flag to true happens ONLY in the to-delete loop at the Object level: the
to-deploy loop leaves an existing node's checked flag entirely unchanged
(no promotion), and Items are never promoted in either loop. -/
theorem gitDiff_merge_union_checked (deploy del : Catalog) (tn : String)
    (fresh : MetadataType) (childs : List (String × MetadataObject)) :
    (∀ ck v, objChecked deploy tn ck = some v →
      objChecked (mergeChildsForDeploy deploy tn fresh childs) tn ck = some v) ∧
    (∀ ck gk v, itemChecked deploy tn ck gk = some v →
      itemChecked (mergeChildsForDeploy deploy tn fresh childs) tn ck gk = some v) ∧
    (∀ p ∈ childs,
      (objChecked (mergeChildsForDeploy deploy tn fresh childs) tn p.1).isSome = true ∧
      ∀ q ∈ p.2.childs,
        (itemChecked (mergeChildsForDeploy deploy tn fresh childs) tn p.1 q.1).isSome =
          true) ∧
    (∀ ck, objChecked del tn ck = some true →
      objChecked (mergeChildsForDelete del tn fresh childs) tn ck = some true) ∧
    (∀ p ∈ childs, p.2.checked = true → (objChecked del tn p.1).isSome = true →
      objChecked (mergeChildsForDelete del tn fresh childs) tn p.1 = some true) ∧
    (∀ ck gk v, itemChecked del tn ck gk = some v →
      itemChecked (mergeChildsForDelete del tn fresh childs) tn ck gk = some v) := by
  refine ⟨?_, ?_, ?_, ?_, ?_, ?_⟩
  · intro ck v h
    exact objChecked_deployFold_preserve (objChecked_ains_fresh h)
  · intro ck gk v h
    exact itemChecked_deployFold_preserve (itemChecked_ains_fresh h)
  · intro p hp
    have htn : (alookup (ains deploy tn fresh) tn).isSome = true :=
      alookup_ains_self_isSome _ _ _
    refine ⟨deployFold_contributed_present hp htn, ?_⟩
    intro q hq
    exact deployFold_contributed_item_present hp hq htn
  · intro ck h
    have h2 : objChecked (ains del tn fresh) tn ck = some true :=
      objChecked_ains_fresh h
    exact objChecked_deleteFold_noDemote h2
  · intro p hp hch hpres
    exact deleteFold_promote hp hch (objChecked_ains_isSome hpres)
  · intro ck gk v h
    exact itemChecked_deleteFold_preserve (itemChecked_ains_fresh h)

/-- Witness for C4 (amended): the to-delete merge promotes an existing
unchecked Object when a contributing file supplies it checked. -/
theorem gitDiff_merge_union_checked_witness :
    objChecked
      (mergeChildsForDelete
        [(MT.APEX_CLASS, { mkType MT.APEX_CLASS true with childs :=
            [("C1", mkObject "C1" false)] })]
        MT.APEX_CLASS (mkType MT.APEX_CLASS true) [("C1", mkObject "C1" true)])
      MT.APEX_CLASS "C1" = some true := by
  have h := (gitDiff_merge_union_checked
    [(MT.APEX_CLASS, { mkType MT.APEX_CLASS true with childs :=
        [("C1", mkObject "C1" false)] })]
    [(MT.APEX_CLASS, { mkType MT.APEX_CLASS true with childs :=
        [("C1", mkObject "C1" false)] })]
    MT.APEX_CLASS (mkType MT.APEX_CLASS true)
    [("C1", mkObject "C1" true)]).2.2.2.2.1
  exact h ("C1", mkObject "C1" true) (by simp) (by decide) (by decide)

/-- C4 counterexample: in the to-deploy merge loop, an Object already
present with checked=false is NOT promoted when a later contributing file
produces the same Object with checked=true (the claim states promotion
happens in both trees).  Concretely: an EmailTemplate folder Object first
contributed unchecked (from a template file diff), then contributed
checked (from the folder's own -meta file diff). -/
theorem deploy_merge_does_not_promote :
    objChecked
      (mergeChildsForDeploy
        [(MT.EMAIL_TEMPLATE, { mkType MT.EMAIL_TEMPLATE true with childs :=
            [("MyFolder", mkObject "MyFolder" false)] })]
        MT.EMAIL_TEMPLATE (mkType MT.EMAIL_TEMPLATE true)
        [("MyFolder", mkObject "MyFolder" true)])
      MT.EMAIL_TEMPLATE "MyFolder" = some false := by decide

/-- C5: for every package manifest category processed by
createMetadataTypesFromPackageXML, every Object and Item node produced from
a member name has checked=true; the wildcard member "*" is never
materialized as an Object (processing a member list equals processing it
with wildcards filtered out, starting from the same Type); the Type's own
checked flag is true iff the member list contained "*"; a member list of
just ["*"] yields a checked Type with zero Objects; and ["Account","Case"]
for a flat category yields exactly two checked Objects with zero Items. -/
theorem packageXML_member_nodes (g : Bool) (tn : String) (members : List String) :
    ((buildTypeFromMembers g tn members).checked = true ↔ "*" ∈ members) ∧
    (∀ p ∈ (buildTypeFromMembers g tn members).childs,
        p.2.checked = true ∧ ∀ q ∈ p.2.childs, q.2.checked = true) ∧
    (buildTypeFromMembers g tn members =
      createMetadataObjectsFromArray { mkType tn with checked := members.contains "*" }
        ((members.filter (fun s => ¬s = "*")).map PkgMember.strM) true none true g) ∧
    buildTypeFromMembers g tn ["*"] = { mkType tn with checked := true } ∧
    (buildTypeFromMembers g MT.CUSTOM_OBJECT ["Account", "Case"]).childs =
      [("Account", mkObject "Account" true), ("Case", mkObject "Case" true)] := by
  refine ⟨?_, ?_, ?_, ?_, by cases g <;> decide⟩
  · have h := (createMetadataObjectsFromArray_name_checked (members.map PkgMember.strM)
      { mkType tn with checked := members.contains "*" } true none true g).2
    unfold buildTypeFromMembers
    rw [h]
    simp [List.contains, List.elem_iff]
  · intro p hp
    have hall : allNodesChecked (buildTypeFromMembers g tn members) := by
      unfold buildTypeFromMembers
      refine allNodesChecked_createMetadataObjectsFromArray _ ?_
      intro q hq
      simp [mkType] at hq
    exact hall p hp
  · unfold buildTypeFromMembers
    exact createMetadataObjectsFromArray_skip_wildcard members _ true none true g
  · unfold buildTypeFromMembers
    show createMetadataObjectsFromArray _ [PkgMember.strM "*"] true none true g = _
    simp only [createMetadataObjectsFromArray, List.foldl_cons, List.foldl_nil,
      processMember_wildcard]
    rfl

/-- Witness for C5: instantiates the theorem at a concrete flat category and
discharges the membership hypothesis on a concrete Object. -/
theorem packageXML_member_nodes_witness :
    (mkObject "Account" true).checked = true ∧
    (buildTypeFromMembers false MT.CUSTOM_OBJECT ["Account", "Case"]).childs =
      [("Account", mkObject "Account" true), ("Case", mkObject "Case" true)] := by
  have h := packageXML_member_nodes false MT.CUSTOM_OBJECT ["Account", "Case"]
  refine ⟨?_, h.2.2.2.2⟩
  exact (h.2.1 ("Account", mkObject "Account" true) (by rw [h.2.2.2.2]; simp)).1

/-- C6 (amended): for every member name classified by
createMetadataObjectsFromArray: EmailTemplate/Document/Report/Dashboard
names are split at the first '/' into (Object, Item);
Layout/CustomObjectTranslation/Flow/StandardValueSetTranslation names at
the first '-'; every other category at the first '.' — except that a
QuickAction member whose two '.'-halves coincide (`Sobj.Sobj`) is
rerouted under the "GlobalActions" Object (with the half as Item) when
grouping is requested; and when the chosen separator does not occur in
the name, the whole name becomes the Object and no Item is created —
EXCEPT for QuickAction, where a separator-less name also becomes a
self-named Item (grouped under "GlobalActions" when grouping is
requested). -/
theorem memberName_separator_classification (t : MetadataType) (g fp : Bool)
    (a b n : String) :
    ((t.name = MT.EMAIL_TEMPLATE ∨ t.name = MT.DOCUMENT ∨ t.name = MT.REPORT ∨
        t.name = MT.DASHBOARD) → '/' ∉ a.toList → ¬b = "" →
      processMember true none fp g t (.strM (a ++ "/" ++ b)) =
        typeAddItemUnder (typeAddChild t a (mkObject a fp)) a b (mkItem b fp)) ∧
    ((t.name = MT.LAYOUT ∨ t.name = MT.CUSTOM_OBJECT_TRANSLATIONS ∨ t.name = MT.FLOW ∨
        t.name = MT.STANDARD_VALUE_SET_TRANSLATION) → '-' ∉ a.toList → ¬b = "" →
      processMember true none fp g t (.strM (a ++ "-" ++ b)) =
        typeAddItemUnder (typeAddChild t a (mkObject a fp)) a b (mkItem b fp)) ∧
    (¬(t.name = MT.EMAIL_TEMPLATE ∨ t.name = MT.DOCUMENT ∨ t.name = MT.REPORT ∨
        t.name = MT.DASHBOARD) →
      ¬(t.name = MT.LAYOUT ∨ t.name = MT.CUSTOM_OBJECT_TRANSLATIONS ∨ t.name = MT.FLOW ∨
        t.name = MT.STANDARD_VALUE_SET_TRANSLATION) →
      ¬(t.name = MT.QUICK_ACTION ∧ b = a ∧ g = true) → '.' ∉ a.toList → ¬b = "" →
      processMember true none fp g t (.strM (a ++ "." ++ b)) =
        typeAddItemUnder (typeAddChild t a (mkObject a fp)) a b (mkItem b fp)) ∧
    (t.name = MT.QUICK_ACTION → '.' ∉ a.toList → ¬a = "" →
      processMember true none fp true t (.strM (a ++ "." ++ a)) =
        typeAddItemUnder
          (typeAddChild t "GlobalActions" (mkObject "GlobalActions" fp))
          "GlobalActions" a (mkItem a fp)) ∧
    (¬t.name = MT.QUICK_ACTION → jsIndexOf n (separatorFor t.name) = none →
        ¬n = "*" → ¬n = "" →
      processMember true none fp g t (.strM n) = typeAddChild t n (mkObject n fp)) ∧
    (t.name = MT.QUICK_ACTION → jsIndexOf n "." = none → ¬n = "*" → ¬n = "" →
      processMember true none fp g t (.strM n) =
        typeAddItemUnder
          (typeAddChild t (if g then "GlobalActions" else n)
            (mkObject (if g then "GlobalActions" else n) fp))
          (if g then "GlobalActions" else n) n (mkItem n fp)) := by
  refine ⟨?_, ?_, ?_, ?_, ?_, ?_⟩
  · intro hcat ha hb
    have hsep : separatorFor t.name = String.mk ['/'] := by
      unfold separatorFor
      rw [if_pos hcat]
    have hq : ¬t.name = MT.QUICK_ACTION := by
      rcases hcat with h | h | h | h <;> rw [h] <;> decide
    exact processMember_split_first hsep (fun hc => hq hc.1) ha hb
  · intro hcat ha hb
    have hq : ¬t.name = MT.QUICK_ACTION := by
      rcases hcat with h | h | h | h <;> rw [h] <;> decide
    have hslash : ¬(t.name = MT.EMAIL_TEMPLATE ∨ t.name = MT.DOCUMENT ∨
        t.name = MT.REPORT ∨ t.name = MT.DASHBOARD) := by
      rcases hcat with h | h | h | h <;> rw [h] <;> decide
    have hsep : separatorFor t.name = String.mk ['-'] := by
      unfold separatorFor
      rw [if_neg hslash, if_pos hcat]
    exact processMember_split_first hsep (fun hc => hq hc.1) ha hb
  · intro h1 h2 hg ha hb
    have hsep : separatorFor t.name = String.mk ['.'] := by
      unfold separatorFor
      rw [if_neg h1, if_neg h2]
    exact processMember_split_first hsep hg ha hb
  · intro hq ha hne
    exact processMember_split_quickAction_grouped hq ha hne
  · intro hq hn hstar hne
    exact processMember_noSep hq hn hstar hne
  · intro hq hn hstar hne
    exact processMember_noSep_quickAction hq hn hstar hne

/-- Witness for C6 (amended) at concrete members: a slash-qualified
EmailTemplate member, a '.'-qualified QuickAction member with distinct
halves (no reroute), a self-named QuickAction member under grouping
(rerouted to "GlobalActions"), a separator-less flat-category member, and
a separator-less QuickAction member. -/
theorem memberName_separator_classification_witness :
    (processMember true none true false (mkType MT.EMAIL_TEMPLATE)
        (.strM ("MyFolder" ++ "/" ++ "Temp")) =
      typeAddItemUnder (typeAddChild (mkType MT.EMAIL_TEMPLATE) "MyFolder"
        (mkObject "MyFolder" true)) "MyFolder" "Temp" (mkItem "Temp" true)) ∧
    (processMember true none true false (mkType MT.QUICK_ACTION)
        (.strM ("Account" ++ "." ++ "LogCall")) =
      typeAddItemUnder (typeAddChild (mkType MT.QUICK_ACTION) "Account"
        (mkObject "Account" true)) "Account" "LogCall" (mkItem "LogCall" true)) ∧
    (processMember true none true true (mkType MT.QUICK_ACTION)
        (.strM ("Foo" ++ "." ++ "Foo")) =
      typeAddItemUnder (typeAddChild (mkType MT.QUICK_ACTION) "GlobalActions"
        (mkObject "GlobalActions" true)) "GlobalActions" "Foo" (mkItem "Foo" true)) ∧
    (processMember true none true false (mkType MT.APEX_CLASS) (.strM "MyClass") =
      typeAddChild (mkType MT.APEX_CLASS) "MyClass" (mkObject "MyClass" true)) ∧
    (processMember true none true false (mkType MT.QUICK_ACTION) (.strM "MyAction") =
      typeAddItemUnder (typeAddChild (mkType MT.QUICK_ACTION) "MyAction"
        (mkObject "MyAction" true)) "MyAction" "MyAction" (mkItem "MyAction" true)) := by
  have h1 := (memberName_separator_classification (mkType MT.EMAIL_TEMPLATE) false true
    "MyFolder" "Temp" "x").1
  have h3 := (memberName_separator_classification (mkType MT.QUICK_ACTION) false true
    "Account" "LogCall" "x").2.2.1
  have h3b := (memberName_separator_classification (mkType MT.QUICK_ACTION) true true
    "Foo" "y" "x").2.2.2.1
  have h4 := (memberName_separator_classification (mkType MT.APEX_CLASS) false true
    "a" "b" "MyClass").2.2.2.2.1
  have h5 := (memberName_separator_classification (mkType MT.QUICK_ACTION) false true
    "a" "b" "MyAction").2.2.2.2.2
  refine ⟨h1 (by left; rfl) (by decide) (by decide), ?_, ?_, ?_, ?_⟩
  · exact h3 (by decide) (by decide) (by decide) (by decide) (by decide)
  · exact h3b rfl (by decide) (by decide)
  · exact h4 (by decide) (by decide) (by decide) (by decide)
  · exact h5 rfl (by decide) (by decide) (by decide)

/-- C6 counterexample: the QuickAction member "MyAction" contains no '.'
separator, yet createMetadataObjectsFromArray creates an Item for it (the
claim states that no Item is created when the separator is absent). -/
theorem quickAction_member_without_separator_gets_item :
    jsIndexOf "MyAction" "." = none ∧
    (alookup (createMetadataObjectsFromArray (mkType MT.QUICK_ACTION)
        [PkgMember.strM "MyAction"] true none true false).childs "MyAction").map
      (fun o => o.childs.length) = some 1 := by decide

/-- C9 (amended): createMetadataTypesFromPackageXML signals
WrongFormatException exactly when its input resolves to a parsed structure
lacking both a Package root and the prepared flag; and it signals
WrongDatatypeException exactly when the input is truthy and is neither a
parseable/resolvable string nor an object (falsy inputs such as null,
undefined, 0 or the empty string return an empty catalog instead). -/
theorem packageXML_error_conditions (parseFile parseStr : String → Option ParsedXml)
    (g : Bool) (inp : PkgInput) :
    (createMetadataTypesFromPackageXML parseFile parseStr g inp =
        .error .wrongFormat ↔
      ∃ x, pkgResolvesTo parseFile parseStr inp x ∧ x.packageBody = none ∧
        x.prepared = false) ∧
    (createMetadataTypesFromPackageXML parseFile parseStr g inp =
        .error .wrongDatatype ↔
      pkgTruthy inp = true ∧
        (inp = .otherTruthy ∨
          ∃ s, inp = .strP s ∧ parseFile s = none ∧ parseStr s = none)) := by
  cases inp with
  | nullish =>
    simp [createMetadataTypesFromPackageXML, pkgTruthy, pkgResolvesTo]
  | otherTruthy =>
    simp [createMetadataTypesFromPackageXML, pkgTruthy, pkgResolvesTo]
  | objP x =>
    by_cases hx : x.packageBody = none ∧ x.prepared = false
    · simp [createMetadataTypesFromPackageXML, pkgTruthy, pkgResolvesTo, hx]
    · simp [createMetadataTypesFromPackageXML, pkgTruthy, pkgResolvesTo, hx]
  | strP s =>
    by_cases hs : s = ""
    · subst hs
      simp [createMetadataTypesFromPackageXML, pkgTruthy, pkgResolvesTo]
    · cases hf : parseFile s with
      | some x =>
        by_cases hx : x.packageBody = none ∧ x.prepared = false
        · simp [createMetadataTypesFromPackageXML, pkgTruthy, pkgResolvesTo, hs, hf, hx]
        · simp [createMetadataTypesFromPackageXML, pkgTruthy, pkgResolvesTo, hs, hf, hx]
      | none =>
        cases hp : parseStr s with
        | some x =>
          by_cases hx : x.packageBody = none ∧ x.prepared = false
          · simp [createMetadataTypesFromPackageXML, pkgTruthy, pkgResolvesTo, hs, hf,
              hp, hx]
          · simp [createMetadataTypesFromPackageXML, pkgTruthy, pkgResolvesTo, hs, hf,
              hp, hx]
        | none =>
          simp [createMetadataTypesFromPackageXML, pkgTruthy, pkgResolvesTo, hs, hf, hp]

/-- Witness for C9 (amended): with both parse oracles failing on a
non-empty string input, the function signals WrongDatatypeException. -/
theorem packageXML_error_conditions_witness :
    createMetadataTypesFromPackageXML (fun _ => none) (fun _ => none) false
      (.strP "x") = .error .wrongDatatype := by
  have h := (packageXML_error_conditions (fun _ => none) (fun _ => none) false
    (.strP "x")).2
  exact h.mpr ⟨by decide, Or.inr ⟨"x", rfl, rfl, rfl⟩⟩

/-- C9 counterexample: a falsy input (null / undefined / 0 / false), which
is neither parseable markup, a valid pre-parsed structure, nor a
resolvable file path, does NOT signal WrongDatatypeException as the claim
requires: the function returns an empty catalog instead. -/
theorem packageXML_falsy_input_returns_empty :
    createMetadataTypesFromPackageXML (fun _ => none) (fun _ => none) false
      .nullish = .ok [] ∧
    ¬createMetadataTypesFromPackageXML (fun _ => none) (fun _ => none) false
      .nullish = .error .wrongDatatype := by
  constructor
  · rfl
  · intro h
    simp [createMetadataTypesFromPackageXML, pkgTruthy] at h

/-- C10: for every input to createMetadataDetails that is neither an array
nor a string (undefined, null, a number, a plain object), the function
returns an empty array rather than raising an error. -/
theorem createMetadataDetails_other_returns_empty
    (suffixByType : String → Option String)
    (parseResponse : String → Except Unit (Option (List TypeDescription)))
    (v : OtherValue) :
    createMetadataDetails suffixByType parseResponse (.other v) = .ok [] := rfl

/-- C1: after the final priority-resolution pass of
createMetadataTypesFromGitDiffs, for every category in the deploy-priority
list, an Object (or Object/Item pair) checked=true in both the to-deploy
and to-delete trees ends with the to-delete copy's checked flag false and
the to-deploy copy's still true; and both returned trees keep their full
node structure (a node exists after resolution iff it existed before, at
every level, in both trees). -/
theorem priorityResolution_deploy_wins (deploy del : Catalog) (tn : String)
    (htn : tn ∈ typesForPriorDeploy) :
    (∀ ck, objChecked deploy tn ck = some true →
      objChecked del tn ck = some true →
      objChecked (resolveGitPriorities deploy del).2 tn ck = some false ∧
      objChecked (resolveGitPriorities deploy del).1 tn ck = some true) ∧
    (∀ ck gk, itemChecked deploy tn ck gk = some true →
      itemChecked del tn ck gk = some true →
      itemChecked (resolveGitPriorities deploy del).2 tn ck gk = some false ∧
      itemChecked (resolveGitPriorities deploy del).1 tn ck gk = some true) ∧
    (∀ tn2 ck2,
      (objChecked (resolveGitPriorities deploy del).1 tn2 ck2).isSome =
        (objChecked deploy tn2 ck2).isSome) ∧
    (∀ tn2 ck2,
      (objChecked (resolveGitPriorities deploy del).2 tn2 ck2).isSome =
        (objChecked del tn2 ck2).isSome) ∧
    (∀ tn2 ck2 gk2,
      (itemChecked (resolveGitPriorities deploy del).1 tn2 ck2 gk2).isSome =
        (itemChecked deploy tn2 ck2 gk2).isSome) ∧
    (∀ tn2 ck2 gk2,
      (itemChecked (resolveGitPriorities deploy del).2 tn2 ck2 gk2).isSome =
        (itemChecked del tn2 ck2 gk2).isSome) := by
  have hnot : tn ∉ typesForPriorDelete := priorLists_disjoint tn htn
  have huntouched : alookup (priorMetadataTypes typesForPriorDelete del deploy) tn =
      alookup deploy tn :=
    alookup_priorPass_untouched (fun tn2 hx he => hnot (he ▸ hx))
  unfold resolveGitPriorities
  dsimp only
  refine ⟨?_, ?_, ?_, ?_, ?_, ?_⟩
  · intro ck hdep hdel
    have hdep2 : objChecked (priorMetadataTypes typesForPriorDelete del deploy)
        tn ck = some true := by
      unfold objChecked at hdep ⊢
      rw [huntouched]
      exact hdep
    obtain ⟨t, o, ht, ho, hv⟩ := objChecked_components hdep2
    have hpres : (objChecked del tn ck).isSome = true := by rw [hdel]; rfl
    constructor
    · rw [objChecked_orderMetadata]
      exact priorPass_reach_object htn ht ho hpres
    · rw [objChecked_orderMetadata]
      exact hdep2
  · intro ck gk hdep hdel
    have hdep2 : itemChecked (priorMetadataTypes typesForPriorDelete del deploy)
        tn ck gk = some true := by
      unfold itemChecked at hdep ⊢
      rw [huntouched]
      exact hdep
    obtain ⟨t, o, it, ht, ho, hi, hv⟩ := itemChecked_components hdep2
    have hpres : (itemChecked del tn ck gk).isSome = true := by rw [hdel]; rfl
    constructor
    · rw [itemChecked_orderMetadata]
      exact priorPass_reach_item htn ht ho hi hpres
    · rw [itemChecked_orderMetadata]
      exact hdep2
  · intro tn2 ck2
    rw [objChecked_orderMetadata, objChecked_priorPass_isSome]
  · intro tn2 ck2
    rw [objChecked_orderMetadata, objChecked_priorPass_isSome]
  · intro tn2 ck2 gk2
    rw [itemChecked_orderMetadata, itemChecked_priorPass_isSome]
  · intro tn2 ck2 gk2
    rw [itemChecked_orderMetadata, itemChecked_priorPass_isSome]

/-- C1 witness: a CustomLabel Object "a" with Item "b", checked in both
trees; after resolution the to-delete copies are unchecked and the
to-deploy copies stay checked. -/
theorem priorityResolution_deploy_wins_witness :
    (objChecked (resolveGitPriorities
        [("CustomLabel", { mkType "CustomLabel" true with childs :=
          [("a", { mkObject "a" true with childs := [("b", mkItem "b" true)] })] })]
        [("CustomLabel", { mkType "CustomLabel" true with childs :=
          [("a", { mkObject "a" true with childs := [("b", mkItem "b" true)] })] })]).2
      "CustomLabel" "a" = some false ∧
     objChecked (resolveGitPriorities
        [("CustomLabel", { mkType "CustomLabel" true with childs :=
          [("a", { mkObject "a" true with childs := [("b", mkItem "b" true)] })] })]
        [("CustomLabel", { mkType "CustomLabel" true with childs :=
          [("a", { mkObject "a" true with childs := [("b", mkItem "b" true)] })] })]).1
      "CustomLabel" "a" = some true) ∧
    (itemChecked (resolveGitPriorities
        [("CustomLabel", { mkType "CustomLabel" true with childs :=
          [("a", { mkObject "a" true with childs := [("b", mkItem "b" true)] })] })]
        [("CustomLabel", { mkType "CustomLabel" true with childs :=
          [("a", { mkObject "a" true with childs := [("b", mkItem "b" true)] })] })]).2
      "CustomLabel" "a" "b" = some false ∧
     itemChecked (resolveGitPriorities
        [("CustomLabel", { mkType "CustomLabel" true with childs :=
          [("a", { mkObject "a" true with childs := [("b", mkItem "b" true)] })] })]
        [("CustomLabel", { mkType "CustomLabel" true with childs :=
          [("a", { mkObject "a" true with childs := [("b", mkItem "b" true)] })] })]).1
      "CustomLabel" "a" "b" = some true) :=
  ⟨(priorityResolution_deploy_wins
      [("CustomLabel", { mkType "CustomLabel" true with childs :=
        [("a", { mkObject "a" true with childs := [("b", mkItem "b" true)] })] })]
      [("CustomLabel", { mkType "CustomLabel" true with childs :=
        [("a", { mkObject "a" true with childs := [("b", mkItem "b" true)] })] })]
      "CustomLabel" (by decide)).1 "a" (by decide) (by decide),
   (priorityResolution_deploy_wins
      [("CustomLabel", { mkType "CustomLabel" true with childs :=
        [("a", { mkObject "a" true with childs := [("b", mkItem "b" true)] })] })]
      [("CustomLabel", { mkType "CustomLabel" true with childs :=
        [("a", { mkObject "a" true with childs := [("b", mkItem "b" true)] })] })]
      "CustomLabel" (by decide)).2.1 "a" "b" (by decide) (by decide)⟩

/-- C2: a 'deleted file' diff on an AuraDefinitionBundle,
LightningComponentBundle, or StaticResource whose deleted file is not the
bundle-defining file (Aura: not .cmp/.evt/.app; LWC: not .js-meta.xml;
StaticResource: not .resource-meta.xml) is reinterpreted as an edit of the
surviving bundle: these categories have no METADATA_XML_RELATION entry, so
the non-composite deleted-file handler runs; it leaves the to-delete tree
untouched and registers the bundle's Object (keyed by the bundle folder
name, or by the file name for a top-level static resource) in the
to-deploy tree — inserted checked when not already present there. -/
theorem deletedBundleFile_routed_to_deploy (deploy del : Catalog)
    (metadataDetail : MetadataDetail) (baseFolderSplits : List String)
    (fileName fileNameWithExt filePath typeFolder key : String) (g : Bool)
    (hcat :
      (metadataDetail.xmlName = MT.AURA_DEFINITION_BUNDLE ∧
        jsEndsWith fileNameWithExt ".cmp" = false ∧
        jsEndsWith fileNameWithExt ".evt" = false ∧
        jsEndsWith fileNameWithExt ".app" = false) ∨
      (metadataDetail.xmlName = MT.LIGHTNING_COMPONENT_BUNDLE ∧
        jsEndsWith fileNameWithExt ".js-meta.xml" = false) ∨
      (metadataDetail.xmlName = MT.STATIC_RESOURCE ∧
        jsEndsWith fileNameWithExt ".resource-meta.xml" = false))
    (hkey :
      (metadataDetail.xmlName = MT.STATIC_RESOURCE ∧
        baseFolderSplits.length = 1 ∧ key = fileName) ∨
      (baseFolderSplits.get? 1 = some key ∧ ¬key = "")) :
    xmlRelation metadataDetail.xmlName = none ∧
    (deletedFileNonComposite deploy del metadataDetail baseFolderSplits fileName
      fileNameWithExt filePath typeFolder g).2 = del ∧
    (objChecked (deletedFileNonComposite deploy del metadataDetail
      baseFolderSplits fileName fileNameWithExt filePath typeFolder g).1
      metadataDetail.xmlName key).isSome = true ∧
    (objChecked deploy metadataDetail.xmlName key = none →
      objChecked (deletedFileNonComposite deploy del metadataDetail
        baseFolderSplits fileName fileNameWithExt filePath typeFolder g).1
        metadataDetail.xmlName key = some true) := by
  have hrel : xmlRelation metadataDetail.xmlName = none := by
    rcases hcat with ⟨h1, -⟩ | ⟨h1, -⟩ | ⟨h1, -⟩ <;> rw [h1] <;> rfl
  have hb : bundleEditCondition metadataDetail.xmlName fileNameWithExt = true := by
    unfold bundleEditCondition
    rcases hcat with ⟨h1, h2, h3, h4⟩ | ⟨h1, h2⟩ | ⟨h1, h2⟩
    · rw [h1]
      simp [h2, h3, h4]
    · rw [h1]
      simp [h2]
    · rw [h1]
      simp [h2]
  have main : ∃ P, getMetadataObjectsFromGitDiff metadataDetail baseFolderSplits
      fileName filePath g = [(key, mkObject key true (some P))] := by
    rcases hcat with ⟨h1, -⟩ | ⟨h1, -⟩ | ⟨h1, -⟩
    · rcases hkey with ⟨hks, -⟩ | ⟨hk, hkne⟩
      · exact absurd (hks.symm.trans h1) (by decide)
      · exact ⟨getBasename filePath,
          getMetadataObjectsFromGitDiff_aura h1 hk hkne⟩
    · rcases hkey with ⟨hks, -⟩ | ⟨hk, hkne⟩
      · exact absurd (hks.symm.trans h1) (by decide)
      · exact ⟨getBasename filePath,
          getMetadataObjectsFromGitDiff_lwc h1 hk hkne⟩
    · rcases hkey with ⟨-, hlen, hkeq⟩ | ⟨hk, -⟩
      · subst hkeq
        exact getMetadataObjectsFromGitDiff_resource_root h1 hlen
      · exact getMetadataObjectsFromGitDiff_resource_sub h1 hk
  obtain ⟨P, hch⟩ := main
  have hfacts := mergeDeploy_singleton_facts deploy metadataDetail.xmlName
    (mkType metadataDetail.xmlName true (some typeFolder) metadataDetail.suffix)
    rfl key (mkObject key true (some P)) rfl rfl
  refine ⟨hrel, ?_, ?_, ?_⟩
  · unfold deletedFileNonComposite
    dsimp only
    rw [hb, if_pos rfl]
  · unfold deletedFileNonComposite
    dsimp only
    rw [hb, if_pos rfl]
    dsimp only
    rw [hch]
    exact hfacts.1
  · intro hnone
    unfold deletedFileNonComposite
    dsimp only
    rw [hb, if_pos rfl]
    dsimp only
    rw [hch]
    exact hfacts.2 hnone

/-- C2 witness: deleting the helper file helloHelper.js of the Aura bundle
helloBundle leaves to-delete untouched and registers the checked Object
helloBundle under AuraDefinitionBundle in to-deploy. -/
theorem deletedBundleFile_routed_to_deploy_witness :
    xmlRelation "AuraDefinitionBundle" = none ∧
    (deletedFileNonComposite [] []
      { xmlName := "AuraDefinitionBundle", directoryName := "aura",
        suffix := none, inFolder := none, metaFile := none }
      ["aura", "helloBundle"] "helloHelper"
      "helloHelper.js" "r/force-app/main/default/aura/helloBundle/helloHelper.js"
      "r/force-app/main/default/aura" false).2 = [] ∧
    (objChecked (deletedFileNonComposite [] []
      { xmlName := "AuraDefinitionBundle", directoryName := "aura",
        suffix := none, inFolder := none, metaFile := none }
      ["aura", "helloBundle"] "helloHelper"
      "helloHelper.js" "r/force-app/main/default/aura/helloBundle/helloHelper.js"
      "r/force-app/main/default/aura" false).1
      "AuraDefinitionBundle" "helloBundle").isSome = true ∧
    (objChecked ([] : Catalog) "AuraDefinitionBundle" "helloBundle" = none →
      objChecked (deletedFileNonComposite [] []
        { xmlName := "AuraDefinitionBundle", directoryName := "aura",
          suffix := none, inFolder := none, metaFile := none }
        ["aura", "helloBundle"] "helloHelper"
        "helloHelper.js" "r/force-app/main/default/aura/helloBundle/helloHelper.js"
        "r/force-app/main/default/aura" false).1
        "AuraDefinitionBundle" "helloBundle" = some true) :=
  deletedBundleFile_routed_to_deploy [] []
    { xmlName := "AuraDefinitionBundle", directoryName := "aura",
      suffix := none, inFolder := none, metaFile := none }
    ["aura", "helloBundle"] "helloHelper"
    "helloHelper.js" "r/force-app/main/default/aura/helloBundle/helloHelper.js"
    "r/force-app/main/default/aura" "helloBundle" false
    (Or.inl ⟨rfl, by decide, by decide, by decide⟩)
    (Or.inr ⟨rfl, by decide⟩)

/-- C8: round-trip — deserializing (with removeEmptyTypes unset) the
serialized untyped form of a typed catalog yields the catalog back, for
every catalog whose key maps are duplicate-free at all three levels (as
every tree backed by JS objects is, in particular every tree produced by
createMetadataTypesFromFileSystem): equality is full structural equality
on name, checked, path, suffix and childs. -/
theorem deserialize_serialize_roundTrip (cat : Catalog)
    (hnd : (cat.map Prod.fst).Nodup)
    (hobj : ∀ p ∈ cat, (p.2.childs.map Prod.fst).Nodup)
    (hitem : ∀ p ∈ cat, ∀ q ∈ p.2.childs, (q.2.childs.map Prod.fst).Nodup) :
    deserializeMetadataTypes (serialize cat) false = cat := by
  unfold deserializeMetadataTypes serialize
  rw [catFold_roundTrip cat [] (fun p _ => rfl) hnd hobj hitem]
  rfl

/-- C8 witness: a one-type, one-object, one-item catalog survives the
serialize/deserialize round trip unchanged. -/
theorem deserialize_serialize_roundTrip_witness :
    deserializeMetadataTypes (serialize
      [("ApexClass", { mkType "ApexClass" true with childs :=
        [("MyClass", { mkObject "MyClass" true with childs :=
          [("x", mkItem "x" true)] })] })]) false =
      [("ApexClass", { mkType "ApexClass" true with childs :=
        [("MyClass", { mkObject "MyClass" true with childs :=
          [("x", mkItem "x" true)] })] })] :=
  deserialize_serialize_roundTrip
    [("ApexClass", { mkType "ApexClass" true with childs :=
      [("MyClass", { mkObject "MyClass" true with childs :=
        [("x", mkItem "x" true)] })] })]
    (by decide) (by decide) (by decide)

end MetaFactory
